import Mathlib

/-!
# Verification of the lalafo flat-listing scraper

Shallow embedding of `parse_data_from_lalafo.py` and proofs of the
specification's claims about it.

Modelling conventions:
* Python strings are `String` / `List Char`; `None`-able values are `Option`.
* Python floats are modelled as `ℚ` (the program only ever divides, adds and
  rounds decimal quantities, so rational arithmetic is exact where binary
  floating point is approximate; this is noted wherever it could matter).
* External collaborators (HTTP transport, BeautifulSoup selector results,
  JSON decoding) appear as explicit inputs: a fetched page is a record of
  the selector results the code reads.
* Library functions the code calls (`urllib.parse.urlsplit`/`urlunsplit`,
  `str.lower`, `str.upper`, `float(...)`, `re` idioms) are re-implemented
  here following their CPython 3.11 semantics.
-/

namespace Lalafo

/-! ## Character-level models of Python `str` methods -/

/-- Python `str.lower()` restricted to the alphabets this program touches:
ASCII `A`–`Z` and Cyrillic `А`–`Я`, `Ё`.  (CPython lowercases the full
Unicode range; every string the scraper lowercases is Latin/Cyrillic.) -/
def pyLowerChar (c : Char) : Char :=
  if 65 ≤ c.toNat ∧ c.toNat ≤ 90 then Char.ofNat (c.toNat + 32)
  else if 1040 ≤ c.toNat ∧ c.toNat ≤ 1071 then Char.ofNat (c.toNat + 32)
  else if c.toNat = 1025 then Char.ofNat 1105
  else c

/-- Python `str.upper()` restricted to ASCII and Cyrillic (see `pyLowerChar`). -/
def pyUpperChar (c : Char) : Char :=
  if 97 ≤ c.toNat ∧ c.toNat ≤ 122 then Char.ofNat (c.toNat - 32)
  else if 1072 ≤ c.toNat ∧ c.toNat ≤ 1103 then Char.ofNat (c.toNat - 32)
  else if c.toNat = 1105 then Char.ofNat 1025
  else c

/-- Python `str.lower()`. -/
def pyLower (s : String) : String := String.mk (s.toList.map pyLowerChar)

/-- Python `str.upper()`. -/
def pyUpper (s : String) : String := String.mk (s.toList.map pyUpperChar)

/-- Is `sub` a prefix of `hay`? (helper for the substring test). -/
def isPre : List Char → List Char → Bool
  | [], _ => true
  | _ :: _, [] => false
  | a :: as, b :: bs => a = b && isPre as bs

/-- Python's `sub in hay` substring test, on exploded strings. -/
def containsL (sub : List Char) : List Char → Bool
  | [] => sub.isEmpty
  | c :: rest => isPre sub (c :: rest) || containsL sub rest

/-- Python's `sub in hay` substring test on `String`s. -/
def containsS (hay sub : String) : Bool := containsL sub.toList hay.toList

/-- Numeric value of a list of decimal digit characters (most significant
first), as produced by Python `int` on an all-digit string. -/
def natOfDigits (cs : List Char) : ℕ :=
  cs.foldl (fun n c => n * 10 + (c.toNat - 48)) 0

/-- Python whitespace for `str.strip()` (ASCII whitespace plus NBSP; the
scraper only ever strips these). -/
def pyIsSpace (c : Char) : Bool :=
  c = ' ' || c = '\t' || c = '\n' || c = '\r' || c.toNat = 11 || c.toNat = 12 || c.toNat = 160

/-- Python `str.strip()`. -/
def pyStrip (s : String) : String :=
  String.mk (((s.toList.dropWhile pyIsSpace).reverse.dropWhile pyIsSpace).reverse)

/-- Split a character list at the FIRST occurrence of `sep`:
returns the part before it and, when `sep` occurs, the part after it.
This is Python's `s.split(sep, 1)` (and `s.find` + slicing). -/
def splitFirst (sep : Char) : List Char → List Char × Option (List Char)
  | [] => ([], none)
  | c :: cs =>
    if c = sep then ([], some cs)
    else (c :: (splitFirst sep cs).1, (splitFirst sep cs).2)

/-! ## `float(...)` on the digits-and-dots strings the scraper builds

`to_float` only ever calls `float` on a string of decimal digits, dots and
commas in which every comma has already been replaced by a dot.  CPython
`float` accepts such a string exactly when it contains at most one dot and
at least one digit (`"1."`, `".5"`, `"12"` parse; `""`, `"."`, `"1.2.3"`
raise `ValueError`). -/

/-- CPython `float(s)` on a string of digits and dots; `none` models
`ValueError`.  (Exotic accepted forms — signs, exponents, `inf`/`nan` —
cannot reach this call site and are modelled as failures.)  The value
`int.frac` is the rational `(int·10^|frac| + frac) / 10^|frac|`, written
with `mkRat` so that the kernel can evaluate it. -/
def pyFloat (cs : List Char) : Option ℚ :=
  if cs.all (fun c => c.isDigit || c = '.') then
    match splitFirst '.' cs with
    | (intPart, none) => if intPart.isEmpty then none else some (natOfDigits intPart)
    | (intPart, some fracPart) =>
      if fracPart.contains '.' then none
      else if intPart.isEmpty && fracPart.isEmpty then none
      else some (mkRat (natOfDigits intPart * 10 ^ fracPart.length + natOfDigits fracPart)
                       (10 ^ fracPart.length))
  else none

/-! ## Text coercion utilities (`to_float`, `extract_int_rooms`,
`first_image`, `to_usd`) -/

/-- The non-breaking space character `"\xa0"`. -/
def nbsp : Char := Char.ofNat 160

/-- The character class kept by `RE_FLOAT = [^\d.,]` deletion: digits, dot,
comma (`\d` is modelled as the ASCII digits). -/
def keepNumChar (c : Char) : Bool := c.isDigit || c = '.' || c = ','

/-- `float(s) if s else None` with `ValueError` mapped to `None`. -/
def floatOrNone (l : List Char) : Option ℚ :=
  if l.isEmpty then none else pyFloat l

/-- `to_float` (source lines 54–62): `None`/empty ↦ `None`; otherwise
replace NBSP by a space and commas by dots, delete every character that is
not a digit, dot or comma (the deletion runs after the comma replacement,
so no comma survives), then `float(...)` with `ValueError` mapped to
`None`. -/
def to_float (s : Option String) : Option ℚ :=
  match s with
  | none => none
  | some t =>
    if t = "" then none
    else
      floatOrNone
        (((t.toList.map (fun c => if c = nbsp then ' ' else c)).map
            (fun c => if c = ',' then '.' else c)).filter keepNumChar)

/-- The spec's description of `parseLocaleNumber`, in the spec's order:
strip every character that is not a digit, dot, or comma, THEN convert
commas to dots, then parse.  Compared against `to_float` in claim C8. -/
def to_float_spec (s : Option String) : Option ℚ :=
  match s with
  | none => none
  | some t =>
    if t = "" then none
    else
      floatOrNone
        ((t.toList.filter keepNumChar).map (fun c => if c = ',' then '.' else c))

/-- `extract_int_rooms` helper: first contiguous run of digits in the text,
i.e. `re.search(r"\d+", s)`. -/
def firstDigitRun : List Char → Option (List Char)
  | [] => none
  | c :: rest =>
    if c.isDigit then some (c :: rest.takeWhile (fun d => d.isDigit))
    else firstDigitRun rest

/-- `extract_int_rooms` (source lines 65–69): `None`/empty ↦ `None`,
otherwise the first digit run as an integer, or `None` when there is none. -/
def extract_int_rooms (s : Option String) : Option ℕ :=
  match s with
  | none => none
  | some t =>
    if t = "" then none
    else (firstDigitRun t.toList).map natOfDigits

/-- `first_image` (source lines 72–75): `None`/empty ↦ `None`, otherwise
the text before the first comma, stripped. -/
def first_image (imagesCsv : Option String) : Option String :=
  match imagesCsv with
  | none => none
  | some t =>
    if t = "" then none
    else some (pyStrip (String.mk (splitFirst ',' t.toList).1))

/-- Python `round(x, 2)`: round to a multiple of 1/100, ties to even
(banker's rounding).  Computed on the numerator/denominator of `q·100`
(`n = q.num·100`, `d = q.den`, floor `f = n.fdiv d`, fractional part
`(n − f·d)/d` compared with 1/2) so that the kernel can evaluate it.
Modelled exactly on ℚ; on binary floats the tie case can differ by one
ulp, which no claim depends on. -/
def pyRound2 (q : ℚ) : ℚ :=
  let n : ℤ := q.num * 100
  let d : ℤ := q.den
  let f : ℤ := n.fdiv d
  let r : ℤ :=
    if d < 2 * (n - f * d) then f + 1
    else if 2 * (n - f * d) < d then f
    else if f % 2 = 0 then f else f + 1
  mkRat r 100

/-- Exact rational division `a / b` written on numerators and denominators
(`Rat.divInt` form) so that the kernel can evaluate it; equals `a / b`
(see `ratDiv_eq_div`). -/
def ratDiv (a b : ℚ) : ℚ := Rat.divInt (a.num * b.den) (a.den * b.num)

/-- `to_usd` (source lines 78–86): `None` price passes through; a currency
upper-casing to `"USD"` leaves the amount unchanged; one upper-casing to
`"KGS"`, `"SOM"` or the native `"СОМ"` divides by the rate and rounds to
2 decimals; anything else (including absent currency) is returned as-is. -/
def to_usd (price : Option ℚ) (currency : Option String) (fx : ℚ) : Option ℚ :=
  match price with
  | none => none
  | some p =>
    let cu := pyUpper (currency.getD "")
    if cu = "USD" then some p
    else if cu = "KGS" ∨ cu = "SOM" ∨ cu = "СОМ" then some (pyRound2 (ratDiv p fx))
    else some p

/-! ## Listing walker (`collect_list_links`, source lines 166–210)

The walker's configuration constants (source lines 18–19). -/

def MAX_PAGES : ℕ := 150

def MAX_ITEMS : ℕ := 5000

/-- Outcome of fetching one listing page: a transport error or HTTP status
≥ 400 (either of which terminates the walk), or the page's candidate
anchor hrefs (the `href` of each
`article.ad-tile-horizontal a.ad-tile-horizontal-link[href]` match, in
document order). -/
inductive PageResult where
  | fetchError : PageResult
  | fetched : List String → PageResult
deriving DecidableEq

/-- `("/item/" in href) or ("/ads/" in href) or ("/ad/" in href)`
(source line 190).  An absent or empty href (`if not href: continue`)
never passes this test, so that guard needs no separate model. -/
def linkFilter (href : String) : Bool :=
  containsS href "/item/" || containsS href "/ads/" || containsS href "/ad/"

/-- State after running the anchor loop on one page: the accumulated
`links` and `seen`, the page's `found` counter, and whether the
`len(links) >= MAX_ITEMS` early `return` fired (`capped`). -/
structure PageOutcome where
  links : List String
  seen : List String
  found : ℕ
  capped : Bool
deriving DecidableEq

/-- The inner anchor loop of `collect_list_links` (source lines 186–198)
for one page: each href passing `linkFilter` is resolved
(`normalize_url(urljoin(url, href))`, abstracted as `resolve`),
deduplicated against `seen`, appended to both accumulators, `found` is
incremented, and `len(links) >= MAX_ITEMS` is checked immediately after
each append — `capped = true` models the early `return links`. -/
def collectPageAnchors (resolve : String → String) (maxItems : ℕ) :
    List String → List String → List String → ℕ → PageOutcome
  | [], links, seen, found => ⟨links, seen, found, false⟩
  | href :: rest, links, seen, found =>
    if linkFilter href then
      if seen.contains (resolve href) then
        collectPageAnchors resolve maxItems rest links seen found
      else
        if maxItems ≤ (links ++ [resolve href]).length then
          ⟨links ++ [resolve href], seen ++ [resolve href], found + 1, true⟩
        else
          collectPageAnchors resolve maxItems rest (links ++ [resolve href])
            (seen ++ [resolve href]) (found + 1)
    else collectPageAnchors resolve maxItems rest links seen found

/-- The page loop of `collect_list_links` (source lines 171–210): `pages`
lists the fetch results of pages `pageNo, pageNo+1, …` (the caller
truncates to `MAX_PAGES` entries, modelling `range(1, MAX_PAGES+1)`);
`resolve n` stands for `href ↦ normalize_url(urljoin(pageUrl n, href))`.
A fetch failure breaks the loop returning the links so far; a capped page
returns immediately; a page with zero new links breaks the loop;
otherwise the walk continues with the next page. -/
def collectAux (resolve : ℕ → String → String) (maxItems : ℕ) :
    List PageResult → ℕ → List String → List String → List String
  | [], _, links, _ => links
  | .fetchError :: _, _, links, _ => links
  | .fetched anchors :: rest, pageNo, links, seen =>
    if (collectPageAnchors (resolve pageNo) maxItems anchors links seen 0).capped then
      (collectPageAnchors (resolve pageNo) maxItems anchors links seen 0).links
    else if (collectPageAnchors (resolve pageNo) maxItems anchors links seen 0).found = 0 then
      (collectPageAnchors (resolve pageNo) maxItems anchors links seen 0).links
    else
      collectAux resolve maxItems rest (pageNo + 1)
        (collectPageAnchors (resolve pageNo) maxItems anchors links seen 0).links
        (collectPageAnchors (resolve pageNo) maxItems anchors links seen 0).seen

/-- `collect_list_links` (source lines 166–210), generalized over the two
configuration constants (the program runs it at `MAX_PAGES`/`MAX_ITEMS`)
and over the transport/URL-resolution collaborators. -/
def collect_list_links (resolve : ℕ → String → String) (pages : List PageResult)
    (maxPages maxItems : ℕ) : List String :=
  collectAux resolve maxItems (pages.take maxPages) 1 [] []

/-! ## URL canonicalization (`normalize_url`, source lines 47–51)

`normalize_url` splits with `urllib.parse.urlsplit`, blanks the query and
fragment components, and reassembles with `urllib.parse.urlunsplit`.  The
two library functions are modelled below following CPython 3.11
`Lib/urllib/parse.py`.  `urlsplit` can also raise `ValueError` (rejecting
the URL outright rather than transforming it): `urlsplitL` here is the
component computation, shared by every call path; the raising checks —
the netloc bracket validation and `_checknetloc` — and the fallible entry
points `urlsplitE`/`normalize_urlE` follow after the reassembly half. -/

/-- ASCII `A`–`Z` (Python `c.isascii() and c.isupper()`-ish; used for the
scheme checks, written on `Char.toNat` to keep the arithmetic uniform). -/
def isAsciiUpper (c : Char) : Bool := 65 ≤ c.toNat && c.toNat ≤ 90

/-- ASCII `a`–`z`. -/
def isAsciiLower (c : Char) : Bool := 97 ≤ c.toNat && c.toNat ≤ 122

/-- ASCII letter — Python `c.isascii() and c.isalpha()`. -/
def isAsciiAlpha (c : Char) : Bool := isAsciiUpper c || isAsciiLower c

/-- ASCII digit. -/
def isAsciiDigit (c : Char) : Bool := 48 ≤ c.toNat && c.toNat ≤ 57

/-- WHATWG C0-control-or-space class (`_WHATWG_C0_CONTROL_OR_SPACE`):
code points `U+0000`–`U+0020`.  `urlsplit` strips these from the left. -/
def isC0OrSpace (c : Char) : Bool := c.toNat ≤ 32

/-- `_UNSAFE_URL_BYTES_TO_REMOVE = ["\t", "\r", "\n"]`, removed anywhere. -/
def isUnsafeUrlChar (c : Char) : Bool := c = '\t' || c = '\r' || c = '\n'

/-- The input cleaning `urlsplit` performs before parsing. -/
def cleanUrl (cs : List Char) : List Char :=
  (cs.dropWhile isC0OrSpace).filter (fun c => !isUnsafeUrlChar c)

/-- `scheme_chars`: ASCII letters, digits, `+`, `-`, `.`. -/
def schemeChar (c : Char) : Bool :=
  isAsciiAlpha c || isAsciiDigit c || c = '+' || c = '-' || c = '.'

/-- Characters ending the netloc: `/`, `?`, `#` (`_splitnetloc`). -/
def netlocEndChar (c : Char) : Bool := c = '/' || c = '?' || c = '#'

/-- Scheme parsing in `urlsplit`: take the text before the first `:` when
it is nonempty, starts with an ASCII letter and consists of scheme
characters; the scheme is lowercased.  Returns `(scheme, rest)`. -/
def parseScheme (cs : List Char) : List Char × List Char :=
  match splitFirst ':' cs with
  | (_, none) => ([], cs)
  | (pre, some rest) =>
    match pre with
    | [] => ([], cs)
    | c0 :: _ =>
      if isAsciiAlpha c0 && pre.all schemeChar then (pre.map pyLowerChar, rest) else ([], cs)

/-- Netloc parsing: when the remainder starts with `//`, the netloc is
everything up to the next `/`, `?` or `#`. -/
def parseNetloc : List Char → List Char × List Char
  | '/' :: '/' :: r =>
    (r.takeWhile (fun c => !netlocEndChar c), r.dropWhile (fun c => !netlocEndChar c))
  | cs => ([], cs)

/-- The five components of `urllib.parse.SplitResult`. -/
structure SplitResult where
  scheme : List Char
  netloc : List Char
  path : List Char
  query : List Char
  fragment : List Char
deriving DecidableEq

/-- The component computation of `urllib.parse.urlsplit` on exploded
strings: clean, take the scheme, the `//`-netloc, then split off the
fragment at the first `#` and the query at the first `?` of what precedes
it.  (`urlsplitE` below adds the `ValueError` paths; on success it
returns exactly these components.) -/
def urlsplitL (u : List Char) : SplitResult :=
  let cs := cleanUrl u
  let s1 := parseScheme cs
  let s2 := parseNetloc s1.2
  let s3 := splitFirst '#' s2.2
  let s4 := splitFirst '?' s3.1
  ⟨s1.1, s2.1, s4.1, (s4.2).getD [], (s3.2).getD []⟩

/-- `urllib.parse.uses_netloc` (the schemes reassembled with `//` even
when the netloc is empty); the empty string in the Python list is covered
by the `scheme ≠ []` conjunct of `urlunsplitL`'s test. -/
def usesNetloc : List (List Char) :=
  ["ftp", "http", "gopher", "nntp", "telnet", "imap", "wais", "file", "mms", "https",
   "shttp", "snews", "prospero", "rtsp", "rtsps", "rtspu", "rsync", "svn", "svn+ssh",
   "sftp", "nfs", "git", "git+ssh", "ws", "wss"].map String.toList

/-- The authority segment `urlunsplit` rebuilds:
`if netloc or (scheme and scheme in uses_netloc and url[:2] != '//'):`
re-root the path (`if url and url[:1] != '/': url = '/' + url`) and
prepend `'//' + (netloc or '')`. -/
def netlocPart (s : SplitResult) : List Char :=
  if s.netloc ≠ [] ∨ (s.scheme ≠ [] ∧ usesNetloc.contains s.scheme ∧ s.path.take 2 ≠ ['/', '/'])
  then
    '/' :: '/' ::
      (s.netloc ++ (if s.path ≠ [] ∧ s.path.take 1 ≠ ['/'] then '/' :: s.path else s.path))
  else s.path

/-- `if scheme: url = scheme + ':' + url`. -/
def addScheme (sc url : List Char) : List Char :=
  if sc ≠ [] then sc ++ ':' :: url else url

/-- `if query: url = url + '?' + query`. -/
def addQuery (q url : List Char) : List Char :=
  if q ≠ [] then url ++ '?' :: q else url

/-- `if fragment: url = url + '#' + fragment`. -/
def addFragment (f url : List Char) : List Char :=
  if f ≠ [] then url ++ '#' :: f else url

/-- `urllib.parse.urlunsplit`. -/
def urlunsplitL (s : SplitResult) : List Char :=
  addFragment s.fragment (addQuery s.query (addScheme s.scheme (netlocPart s)))

/-- `urlsplit` on `String`. -/
def urlsplitS (u : String) : SplitResult := urlsplitL u.toList

/-- `normalize_url` (source lines 47–51): split, blank query and fragment,
reassemble.  This is the value on `urlsplit`'s success path;
`normalize_urlE` below carries the `ValueError`. -/
def normalize_url (u : String) : String :=
  let p := urlsplitS u
  String.mk (urlunsplitL ⟨p.scheme, p.netloc, p.path, [], []⟩)

/-! ## `urlsplit`'s `ValueError` paths

`urlsplit` can raise: a netloc with an unbalanced bracket is an
"Invalid IPv6 URL"; a bracketed host must satisfy `_check_bracketed_host`
(an IPvFuture literal or a valid IPv6 — not IPv4 — address per the
`ipaddress` module); and `_checknetloc` rejects a non-ASCII netloc whose
NFKC normalization would introduce one of `/?#@:`.  `urlsplitE` is the
fallible embedding; `urlsplitL` above is its value on the success path.
`normalize_url` inherits these raises, and `parse_flat_page` calls it on
line 234, before its `try` block opens, so they escape to the caller. -/

/-- `str.isascii()` on one character: code point below 128. -/
def pyIsAscii (c : Char) : Bool := c.toNat ≤ 127

/-- `string.hexdigits` membership (`ipaddress._HEX_DIGITS`). -/
def isHexDigitPy (c : Char) : Bool :=
  isAsciiDigit c || (97 ≤ c.toNat && c.toNat ≤ 102) || (65 ≤ c.toNat && c.toNat ≤ 70)

/-- Python `str.split(sep)` for a one-character separator: the list of
(possibly empty) runs between occurrences of `sep`. -/
def splitOn (sep : Char) : List Char → List (List Char)
  | [] => [[]]
  | c :: t =>
    if c = sep then [] :: splitOn sep t
    else
      match splitOn sep t with
      | [] => [[c]]
      | h :: r => (c :: h) :: r

/-- `ipaddress._BaseV4._parse_octet` succeeds: nonempty, ASCII decimal
digits only, at most three of them, no leading zero (except `"0"`
itself), value at most 255. -/
def octetOk (s : List Char) : Bool :=
  !s.isEmpty && s.all isAsciiDigit && decide (s.length ≤ 3) &&
    (s == ['0'] || !(s.take 1 == ['0'])) && decide (natOfDigits s ≤ 255)

/-- `ipaddress.IPv4Address` accepts the string: no `/`, exactly four
`.`-separated parts, each a valid octet. -/
def ipv4Ok (s : List Char) : Bool :=
  !s.contains '/' && (splitOn '.' s).length == 4 && (splitOn '.' s).all octetOk

/-- `ipaddress._BaseV6._parse_hextet` succeeds: hex digits only, at most
four, and nonempty (`int('', 16)` raises). -/
def hextetOk (s : List Char) : Bool :=
  !s.isEmpty && s.all isHexDigitPy && decide (s.length ≤ 4)

/-- The structural `::` analysis of `_BaseV6._ip_int_from_string` on the
`:`-separated parts (after the IPv4-suffix conversion): at most 9 parts;
without an interior empty part, exactly 8 parts with nonempty endpoints;
with exactly one interior empty part (the `::`), an empty first/last part
is permitted only immediately next to it, at most 7 explicit hextets
remain, and every explicit hextet must be valid. -/
def ipv6PartsOk (parts : List (List Char)) : Bool :=
  decide (parts.length ≤ 9) &&
    (let gaps := ((parts.drop 1).dropLast.filter (fun q => q.isEmpty)).length
     if gaps == 0 then
       parts.length == 8 && !(parts.headD ['0']).isEmpty &&
         !(parts.getLastD ['0']).isEmpty && parts.all hextetOk
     else if gaps == 1 then
       let skip := ((parts.drop 1).dropLast.takeWhile (fun q => !q.isEmpty)).length + 1
       let headE := (parts.headD ['0']).isEmpty
       let lastE := (parts.getLastD ['0']).isEmpty
       let hi := if headE then skip - 1 else skip
       let lo := if lastE then parts.length - skip - 2 else parts.length - skip - 1
       (!headE || skip == 1) && (!lastE || parts.length - skip - 1 == 1) &&
         decide (hi + lo ≤ 7) && (parts.take hi).all hextetOk &&
         (parts.drop (parts.length - lo)).all hextetOk
     else false)

/-- The IPv4-suffix conversion at the head of `_ip_int_from_string`: a
last `:`-part containing a dot must be a valid IPv4 address and is
replaced by two (always valid) hextets. -/
def ipv6SuffixParts (parts : List (List Char)) : Option (List (List Char)) :=
  if (parts.getLastD []).contains '.' then
    if ipv4Ok (parts.getLastD []) then some (parts.dropLast ++ [['0'], ['0']])
    else none
  else some parts

/-- `ipaddress.IPv6Address` accepts the string: no `/`, an optional
nonempty `%`-scope with no second `%`, and an address text of at least
three `:`-parts passing the structural analysis. -/
def ipv6Ok (s : List Char) : Bool :=
  !s.contains '/' &&
    (match (splitFirst '%' s).2 with
     | none => true
     | some scope => !scope.isEmpty && !scope.contains '%') &&
    (let addr := (splitFirst '%' s).1
     !addr.isEmpty && decide (3 ≤ (splitOn ':' addr).length) &&
       (match ipv6SuffixParts (splitOn ':' addr) with
        | none => false
        | some parts2 => ipv6PartsOk parts2))

/-- The `\Av[a-fA-F0-9]+\..+\Z` IPvFuture shape of
`_check_bracketed_host`: `v`, one or more hex digits, a dot, then at
least one character with no newline among them. -/
def ipvFutureOk (h : List Char) : Bool :=
  h.take 1 == ['v'] && !((h.drop 1).takeWhile isHexDigitPy).isEmpty &&
    ((h.drop 1).dropWhile isHexDigitPy).take 1 == ['.'] &&
    !(((h.drop 1).dropWhile isHexDigitPy).drop 1).isEmpty &&
    !(((h.drop 1).dropWhile isHexDigitPy).drop 1).contains '\n'

/-- `_check_bracketed_host`: `some` error exactly when it raises. -/
def checkBracketedHost (h : List Char) : Option String :=
  if h.take 1 == ['v'] then
    if ipvFutureOk h then none else some "IPvFuture address is invalid"
  else if ipv4Ok h then some "An IPv4 address cannot be in brackets"
  else if ipv6Ok h then none
  else some "does not appear to be an IPv4 or IPv6 address"

/-- `netloc.partition('[')[2].partition(']')[0]`: the text between the
first `[` and the following `]`. -/
def bracketedHostOf (nl : List Char) : List Char :=
  (splitFirst ']' ((splitFirst '[' nl).2.getD [])).1

/-- The bracket validation `urlsplit` performs on a freshly split
netloc. -/
def bracketCheck (nl : List Char) : Option String :=
  if (nl.contains '[' && !nl.contains ']') || (nl.contains ']' && !nl.contains '[') then
    some "Invalid IPv6 URL"
  else if nl.contains '[' && nl.contains ']' then
    checkBracketedHost (bracketedHostOf nl)
  else none

/-- The nineteen characters beyond `/?#@:` themselves whose NFKC
normalization contains one of `/?#@:` (exhaustively determined over the
Unicode repertoire with CPython's `unicodedata`). -/
def nfkcSpecial (c : Char) : Bool :=
  c.toNat = 0x2047 || c.toNat = 0x2048 || c.toNat = 0x2049 || c.toNat = 0x2100 ||
  c.toNat = 0x2101 || c.toNat = 0x2105 || c.toNat = 0x2106 || c.toNat = 0x2A74 ||
  c.toNat = 0xFE13 || c.toNat = 0xFE16 || c.toNat = 0xFE55 || c.toNat = 0xFE56 ||
  c.toNat = 0xFE5F || c.toNat = 0xFE6B || c.toNat = 0xFF03 || c.toNat = 0xFF0F ||
  c.toNat = 0xFF1A || c.toNat = 0xFF1F || c.toNat = 0xFF20

/-- `_checknetloc`: an empty or all-ASCII netloc passes; otherwise `@`,
`:`, `#`, `?` are removed and the check raises iff NFKC normalization of
the remainder would introduce one of `/?#@:` — on a netloc (which cannot
contain `/`, `?` or `#`, its split delimiters) that is iff an
`nfkcSpecial` character remains. -/
def checknetloc (nl : List Char) : Option String :=
  if nl.isEmpty || nl.all pyIsAscii then none
  else if (nl.filter (fun c =>
      !(c == '@' || c == ':' || c == '#' || c == '?'))).any nfkcSpecial then
    some "netloc contains invalid characters under NFKC normalization"
  else none

/-- `urllib.parse.urlsplit` with its `ValueError` paths: the bracket
validation runs exactly when the post-scheme text begins `//` (when a
netloc is split off), `_checknetloc` runs on every call, and on success
the components are those of `urlsplitL`. -/
def urlsplitE (u : List Char) : Except String SplitResult :=
  match (if (parseScheme (cleanUrl u)).2.take 2 = ['/', '/']
         then bracketCheck (urlsplitL u).netloc else none) with
  | some e => Except.error e
  | none =>
    match checknetloc (urlsplitL u).netloc with
    | some e => Except.error e
    | none => Except.ok (urlsplitL u)

/-- `normalize_url` with `urlsplit`'s `ValueError` propagated. -/
def normalize_urlE (u : String) : Except String String :=
  match urlsplitE u.toList with
  | Except.error e => Except.error e
  | Except.ok p => Except.ok (String.mk (urlunsplitL ⟨p.scheme, p.netloc, p.path, [], []⟩))

/-! ## Item page model (`parse_flat_page`, source lines 233–405)

BeautifulSoup and the JSON decoder are external collaborators, so a
fetched page is modelled as the record of the selector/JSON results the
code reads.  JSON-LD numeric payloads are given post-`float(...)`-coercion
as `ℚ` (a payload that `float` rejects would abort into the `error`
branch); the `or`-chains on JSON fields use Python falsiness (`0`, `""`,
`None`). -/

/-- The `offers` object fields read at source lines 358–367:
`price`/`priceCurrency` and the nested `priceSpecification` pair. -/
structure OffersDict where
  price : Option ℚ
  priceCurrency : Option String
  specPrice : Option ℚ
  specCurrency : Option String
deriving DecidableEq

/-- `j.get("offers")` shapes the code distinguishes: a dict, or a list
(only the head is read; the empty list falls through both branches and is
represented by `olist []`). Other JSON shapes behave like an absent
`offers` and are modelled as `none` at the `Jsonld.offers` field. -/
inductive OffersVal where
  | odict : OffersDict → OffersVal
  | olist : List OffersDict → OffersVal
deriving DecidableEq

/-- The location value: `j.get("areaServed") or j.get("address") or
j.get("availableAtOrFrom")` (the `or`-chain is collapsed into one field),
either a sub-object with the four address parts or a plain string. -/
inductive LocVal where
  | ldict : Option String → Option String → Option String → Option String → LocVal
  | lstr : String → LocVal
deriving DecidableEq

/-- The JSON-LD object returned by `extract_jsonld` (source lines
213–230): the first `Product`/`Offer`/`ClassifiedAd`/`OfferForLease`
object of a parseable `application/ld+json` block, restricted to the
fields `parse_flat_page` reads. -/
structure Jsonld where
  name : Option String
  headline : Option String
  offers : Option OffersVal
  datePosted : Option String
  datePublished : Option String
  loc : Option LocVal
deriving DecidableEq

/-- Selector results of one item page, in source order. -/
structure Page where
  /-- `h1.ad-detail-title` text. -/
  title : Option String
  /-- `.details-page__statistic-bar .impressions span` text. -/
  impressionsText : Option String
  /-- `.details-page__statistic-bar ul li` texts. -/
  statItems : List String
  /-- `.userName-text` text. -/
  sellerName : Option String
  /-- whether a `.pro-label` element is present. -/
  proLabel : Bool
  /-- `.phone-wrap p` text. -/
  phoneMask : Option String
  /-- per `ul.details-page__params > li`: the first `p` text (the label,
  absent when the li has no `p`) and the `li.select("a, p")[1:]` texts. -/
  paramItems : List (Option String × List String)
  /-- `.description .description__wrap` text. -/
  description : Option String
  /-- `.map-with-city-marker p.LFParagraph` text. -/
  mapCity : Option String
  /-- per `.about-ad-info__date` widget: its `span` texts. -/
  dateWidgets : List (List String)
  /-- `.about-ad-info__id span` text. -/
  idText : Option String
  /-- `src` of each `.slider-component__item img[src]`. -/
  sliderImgSrcs : List String
  /-- result of `extract_jsonld(soup)`. -/
  jsonld : Option Jsonld
  /-- text of `soup.select_one('[class*="price"], .price, .ad-detail-price')`. -/
  priceTagText : Option String
deriving DecidableEq

/-- Result of `sess.get(url)` + `raise_for_status()` + parsing: either an
exception message (transport error or HTTP status ≥ 400) or the page. -/
inductive FetchOutcome where
  | failure : String → FetchOutcome
  | success : Page → FetchOutcome
deriving DecidableEq

/-- The full attribute record (`FlatDetail`, source lines 116–162). -/
structure FlatDetail where
  url : String
  title : Option String := none
  price : Option ℚ := none
  currency : Option String := none
  city : Option String := none
  created : Option String := none
  updated : Option String := none
  ad_id : Option String := none
  shows : Option ℕ := none
  views : Option ℤ := none
  favorites : Option ℤ := none
  seller_name : Option String := none
  seller_is_pro : Option Bool := none
  phone_mask : Option String := none
  rooms : Option String := none
  area_m2 : Option ℚ := none
  floor : Option ℕ := none
  floors_total : Option ℕ := none
  district : Option String := none
  series : Option String := none
  documents : Option String := none
  heating : Option String := none
  repair : Option String := none
  features : Option String := none
  offer_type : Option String := none
  deal_type : Option String := none
  description : Option String := none
  images : Option String := none
  jl_title : Option String := none
  jl_price : Option ℚ := none
  jl_currency : Option String := none
  jl_date : Option String := none
  jl_location : Option String := none
  error : Option String := none
deriving DecidableEq

/-- Python `a or b` on optional strings (`None` and `""` are falsy). -/
def pyOrS (a b : Option String) : Option String :=
  match a with
  | some s => if s = "" then b else some s
  | none => b

/-- Python `a or b` on optional numbers (`None` and `0` are falsy). -/
def pyOrQ (a b : Option ℚ) : Option ℚ :=
  match a with
  | some q => if q = 0 then b else some q
  | none => b

/-- Python truthiness of an optional string. -/
def truthyS : Option String → Bool
  | none => false
  | some s => s ≠ ""

/-- `"; ".join(v for v in vals if v)` followed by `... or None`. -/
def joinVals (vals : List String) : Option String :=
  let kept := vals.filter (fun v => v ≠ "")
  if kept.isEmpty then none else some (String.intercalate "; " kept)

/-- `", ".join(filter(None, parts)) or None`. -/
def joinNonEmptyComma (parts : List (Option String)) : Option String :=
  let kept := (parts.filterMap id).filter (fun s => s ≠ "")
  if kept.isEmpty then none else some (String.intercalate ", " kept)

/-- `int(NUM_ONLY_RE.sub("", (vals[0] if vals else "") or "") or 0) or None`
(source lines 288, 293): keep the digits of the first value, parse (empty
↦ 0), and collapse 0 to `None`. -/
def natOrNone (vals : List String) : Option ℕ :=
  let digits := (vals.headD "").toList.filter (fun c => c.isDigit)
  let n := if digits.isEmpty then 0 else natOfDigits digits
  if n = 0 then none else some n

/-- `re.search(r"(\d[\d\s ]*)", t)` (source line 248): the first
digit followed by its run of digits and whitespace/NBSP. -/
def firstNumRun : List Char → Option (List Char)
  | [] => none
  | c :: rest =>
    if c.isDigit then some (c :: rest.takeWhile (fun d => d.isDigit || pyIsSpace d))
    else firstNumRun rest

/-- `int()` truncation of a nonnegative rational (every value reaching it
comes from `to_float`, hence is ≥ 0, so truncation equals floor). -/
def ratFloor (q : ℚ) : ℤ := q.num.fdiv q.den

/-- Python word character for `\b` in `re.search(r"\bID\s+(\d+)", …)`,
restricted to the Latin/Cyrillic/digit/underscore range the site uses. -/
def pyWordChar (c : Char) : Bool :=
  c.isAlpha || c.isDigit || c = '_' || (1040 ≤ c.toNat && c.toNat ≤ 1103) ||
    c.toNat = 1025 || c.toNat = 1105

/-- `re.search(r"\bID\s+(\d+)", t)` (source line 337): scan for `ID` at a
word boundary followed by whitespace and digits; return the digit group. -/
def findIdFrom (prev : Option Char) : List Char → Option (List Char)
  | [] => none
  | c :: rest =>
    (if c = 'I' then
      match rest with
      | 'D' :: rest2 =>
        if (match prev with | none => true | some p => !pyWordChar p) then
          if (rest2.takeWhile pyIsSpace).isEmpty then none
          else
            let ds := (rest2.drop (rest2.takeWhile pyIsSpace).length).takeWhile
              (fun d => d.isDigit)
            if ds.isEmpty then none else some ds
        else none
      | _ => none
    else none).orElse (fun _ => findIdFrom (some c) rest)

/-- `CITY_RE` alternatives (source line 37), in pattern order. -/
def cityNames : List String :=
  ["Бишкек", "Ош", "Каракол", "Нарын", "Талас", "Баткен", "Джалал-Абад", "Маевка",
   "Кемин", "Тамчы", "Новониколаевка"]

/-- Try each `CITY_RE` alternative at the head of `cs`, case-insensitively
(`re.I`); return the matched slice of the original text. -/
def cityAt (cs : List Char) : Option (List Char) :=
  cityNames.findSome? fun n =>
    if (cs.take n.toList.length).map pyLowerChar = n.toList.map pyLowerChar then
      some (cs.take n.toList.length)
    else none

/-- `CITY_RE.search`: leftmost match, alternatives in pattern order. -/
def citySearchAux : List Char → Option (List Char)
  | [] => none
  | c :: rest =>
    match cityAt (c :: rest) with
    | some m => some m
    | none => citySearchAux rest

/-- `CITY_RE.search(title).group(1)` as a `String`. -/
def citySearch (t : String) : Option String :=
  (citySearchAux t.toList).map String.mk

/-- `dict.fromkeys` de-duplication: first occurrence kept, order kept. -/
def dedupFirst (l : List String) : List String :=
  l.foldl (fun acc s => if acc.contains s then acc else acc ++ [s]) []

/-! ### The extraction steps of `parse_flat_page`, in source order -/

/-- Source line 241–242: the title. -/
def titleStep (page : Page) (r : FlatDetail) : FlatDetail :=
  { r with title := page.title }

/-- Source lines 246–260: impressions ("Показы"), views, favorites. -/
def statsStep (page : Page) (r : FlatDetail) : FlatDetail :=
  let r1 :=
    match page.impressionsText with
    | none => r
    | some t =>
      match firstNumRun t.toList with
      | none => r
      | some run => { r with shows := some (natOfDigits (run.filter (fun c => c.isDigit))) }
  let r2 :=
    match page.statItems.get? 0 with
    | none => r1
    | some vtxt => { r1 with views := (to_float (some vtxt)).map ratFloor }
  match page.statItems.get? 1 with
  | none => r2
  | some ftxt => { r2 with favorites := (to_float (some ftxt)).map ratFloor }

/-- Source lines 263–267: seller name, pro badge, phone mask. -/
def sellerStep (page : Page) (r : FlatDetail) : FlatDetail :=
  { r with seller_name := page.sellerName,
           seller_is_pro := some page.proLabel,
           phone_mask := page.phoneMask }

/-- The `if`/`elif` label chain of the parameter loop, on the lowered
label `key` and the joined value `val` (the locals of the loop body). -/
def applyParamKeyed (key : String) (val : Option String) (vals : List String)
    (r : FlatDetail) : FlatDetail :=
  if containsS key "количество комнат" then { r with rooms := val }
  else if containsS key "площадь" && containsS key "м2" then
    { r with area_m2 := to_float vals.head? }
  else if key.startsWith "этаж:" || key = "этаж:" || containsS key "этаж:" then
    { r with floor := natOrNone vals }
  else if containsS key "этажей в доме" then { r with floors_total := natOrNone vals }
  else if containsS key "район бишкека" || containsS key "район" then
    { r with district := val }
  else if containsS key "серия" then { r with series := val }
  else if containsS key "правоустанавливающие" then { r with documents := val }
  else if containsS key "отопление" then { r with heating := val }
  else if containsS key "ремонт" then { r with repair := val }
  else if containsS key "дополнительно" then { r with features := val }
  else if containsS key "тип предложения" then { r with offer_type := val }
  else if containsS key "тип сделки" then { r with deal_type := val }
  else r

/-- One iteration of the labeled-parameter loop (source lines 270–311):
skip the `li` when it has no label, else lower-case the label and run the
substring chain; the first matching pattern sets its field; unrecognized
labels are ignored. -/
def applyParam : Option String × List String → FlatDetail → FlatDetail
  | (none, _), r => r
  | (some labelText, vals), r => applyParamKeyed (pyLower labelText) (joinVals vals) vals r

/-- The labeled-parameter loop over all `li` items. -/
def paramsStep (page : Page) (r : FlatDetail) : FlatDetail :=
  page.paramItems.foldl (fun acc it => applyParam it acc) r

/-- Source lines 314–315: the description block. -/
def descriptionStep (page : Page) (r : FlatDetail) : FlatDetail :=
  { r with description := page.description }

/-- Source lines 318–323: city from the map caption, falling back to a
`CITY_RE` match in the title when the caption is absent or empty. -/
def cityStep (page : Page) (r : FlatDetail) : FlatDetail :=
  let r1 := { r with city := page.mapCity }
  if !truthyS r1.city && truthyS r1.title then
    match r1.title with
    | some t =>
      match citySearch t with
      | some m => { r1 with city := some m }
      | none => r1
    | none => r1
  else r1

/-- Source lines 326–339: the two date widgets (second `span` text of
each) and the `ID <digits>` identifier. -/
def datesIdStep (page : Page) (r : FlatDetail) : FlatDetail :=
  let r1 :=
    match (page.dateWidgets.get? 0).bind (fun w => w.get? 1) with
    | some s => { r with created := some s }
    | none => r
  let r2 :=
    match (page.dateWidgets.get? 1).bind (fun w => w.get? 1) with
    | some s => { r1 with updated := some s }
    | none => r1
  match page.idText with
  | none => r2
  | some t =>
    match findIdFrom none t.toList with
    | some ds => { r2 with ad_id := some (String.mk ds) }
    | none => r2

/-- Source lines 342–351: slider images; protocol-relative `//…` sources
upgraded to `https:`, only `http…` sources kept, first-seen order
de-duplicated, comma-joined; the field is set only when nonempty. -/
def imagesStep (page : Page) (r : FlatDetail) : FlatDetail :=
  let kept := (page.sliderImgSrcs.map
    (fun s => if s.startsWith "//" then "https:" ++ s else s)).filter
      (fun s => s.startsWith "http")
  if kept.isEmpty then r
  else { r with images := some (String.intercalate ", " (dedupFirst kept)) }

/-- Source lines 354–380: the JSON-LD step filling the `jl_*` shadow
fields. -/
def jsonldStep (page : Page) (r : FlatDetail) : FlatDetail :=
  match page.jsonld with
  | none => r
  | some j =>
    let r1 := { r with jl_title := pyOrS j.name j.headline }
    let r2 :=
      match j.offers with
      | some (.odict d) =>
        { r1 with jl_price := pyOrQ d.price d.specPrice,
                  jl_currency := pyOrS d.priceCurrency d.specCurrency }
      | some (.olist (d :: _)) =>
        { r1 with jl_price := d.price, jl_currency := d.priceCurrency }
      | some (.olist []) => r1
      | none => r1
    let r3 := { r2 with jl_date := pyOrS j.datePosted j.datePublished }
    match j.loc with
    | some (.ldict a b c n) => { r3 with jl_location := joinNonEmptyComma [a, b, c, n] }
    | some (.lstr s) => { r3 with jl_location := some s }
    | none => r3

/-- The currency inference of the DOM price fallback (source lines
389–393): a USD marker wins, else a local-currency marker, else the
incoming value is kept. -/
def dom_currency (txt : String) (cur : Option String) : Option String :=
  let low := pyLower txt
  if containsS low "usd" || containsS low "$" then some "USD"
  else if containsS low "сом" || containsS low "kgs" then some "KGS"
  else cur

/-- Source lines 382–393, the DOM price fallback: ONLY when `jl_price` is
`None`, read the price-classed element, numeric-coerce its text into
`price` and infer `currency` from the markers. -/
def domPriceStep (page : Page) (r : FlatDetail) : FlatDetail :=
  if r.jl_price = none then
    match page.priceTagText with
    | none => r
    | some txt =>
      { r with price := to_float (some txt), currency := dom_currency txt r.currency }
  else r

/-- Source lines 398–399: `if row.jl_currency: row.currency = row.jl_currency`. -/
def mergeCurrency (r : FlatDetail) : FlatDetail :=
  if truthyS r.jl_currency then { r with currency := r.jl_currency } else r

/-- Source lines 395–399, the JSON-LD precedence merge: a present
`jl_price` overwrites `price` (line 396–397), then a truthy `jl_currency`
overwrites `currency` (lines 398–399). -/
def mergeStep (r : FlatDetail) : FlatDetail :=
  mergeCurrency (if r.jl_price ≠ none then { r with price := r.jl_price } else r)

/-- Steps 1–9 of `parse_flat_page` (everything before the JSON-LD step). -/
def preSteps (url : String) (page : Page) : FlatDetail :=
  imagesStep page (datesIdStep page (cityStep page (descriptionStep page
    (paramsStep page (sellerStep page (statsStep page (titleStep page
      { url := normalize_url url })))))))

/-- The `try`-branch body of `parse_flat_page` on a fetched page. -/
def parsePage (url : String) (page : Page) : FlatDetail :=
  mergeStep (domPriceStep page (jsonldStep page (preSteps url page)))

/-- `parse_flat_page` (source lines 233–405): always returns a record
carrying the canonicalized input URL; a fetch failure (transport error or
`raise_for_status`) is caught and recorded in `error`.  The function is
total — nothing escapes to the caller. -/
def parse_flat_page (url : String) (fetch : String → FetchOutcome) : FlatDetail :=
  match fetch (normalize_url url) with
  | .failure msg => { url := normalize_url url, error := some msg }
  | .success page => parsePage url page

/-- `parse_flat_page` as seen by its caller: line 234's
`FlatDetail(url=normalize_url(url))` runs before the `try` block opens
on line 235, so a `ValueError` from `urlsplit` escapes; otherwise the
total embedding applies (`normalize_urlE`'s success value is
`normalize_url url`). -/
def parse_flat_pageE (url : String) (fetch : String → FetchOutcome) :
    Except String FlatDetail :=
  match normalize_urlE url with
  | Except.error e => Except.error e
  | Except.ok _ => Except.ok (parse_flat_page url fetch)

/-- The deep-scrape loop of `scrape` (source lines 436–449): one
`parse_flat_page` call per collected link, results appended in order. -/
def scrapeRows (fetch : String → FetchOutcome) : List String → List FlatDetail
  | [] => []
  | u :: rest => parse_flat_page u fetch :: scrapeRows fetch rest

/-! ## Mint projection (`save_mint_csv`, source lines 408–424)

CSV cell rendering of a number is the serialization collaborator's
business, so the numeral formatter is a parameter `showQ`; every claim
about this projection concerns only which cells are empty. -/

/-- One CSV row of `apartments_for_mint.csv`. -/
structure MintRow where
  id : String
  address : String
  square_meters : String
  rooms : String
  price_usd : String
  photo_url : String
  legal_docs_url : String
deriving DecidableEq

/-- Python `x or ""` for an optional number rendered into a CSV cell:
`None` AND the number 0 both yield the empty cell. -/
def cellQ (showQ : ℚ → String) (v : Option ℚ) : String :=
  match v with
  | none => ""
  | some q => if q = 0 then "" else showQ q

/-- Python `x or ""` for an optional integer CSV cell. -/
def cellN (v : Option ℕ) : String :=
  match v with
  | none => ""
  | some n => if n = 0 then "" else toString n

/-- Python `x or ""` for an optional string CSV cell. -/
def cellS (v : Option String) : String := v.getD ""

/-- The row written for one record (source lines 413–424). -/
def mint_row (showQ : ℚ → String) (fx : ℚ) (r : FlatDetail) : MintRow :=
  let price_primary := if r.price ≠ none then r.price else r.jl_price
  let currency_primary := if truthyS r.currency then r.currency else r.jl_currency
  let joined := String.intercalate ", "
    (([r.city, r.district].filterMap id).filter (fun s => s ≠ ""))
  { id := cellS r.ad_id
    address := if joined = "" then cellS r.city else joined
    square_meters := cellQ showQ r.area_m2
    rooms := cellN (extract_int_rooms r.rooms)
    price_usd := cellQ showQ (to_usd price_primary currency_primary fx)
    photo_url := cellS (first_image r.images)
    legal_docs_url := "" }

/-- `save_mint_csv`: one `MintRow` per record, in order. -/
def save_mint_csv (showQ : ℚ → String) (rows : List FlatDetail) (fx : ℚ) : List MintRow :=
  rows.map (mint_row showQ fx)

/-- The JSON-LD price a page yields (what the structured-data extractor
step writes into `jl_price` starting from a blank record). -/
def jlPriceOfPage (page : Page) : Option ℚ :=
  match page.jsonld with
  | none => none
  | some j =>
    match j.offers with
    | some (.odict d) => pyOrQ d.price d.specPrice
    | some (.olist (d :: _)) => d.price
    | some (.olist []) => none
    | none => none

/-- The JSON-LD currency a page yields (see `jlPriceOfPage`). -/
def jlCurrencyOfPage (page : Page) : Option String :=
  match page.jsonld with
  | none => none
  | some j =>
    match j.offers with
    | some (.odict d) => pyOrS d.priceCurrency d.specCurrency
    | some (.olist (d :: _)) => d.priceCurrency
    | some (.olist []) => none
    | none => none

/-! ### Field-preservation lemmas: which steps leave `url`, `price`,
`currency`, `jl_price`, `jl_currency`, `error` alone -/

/-- The six fields the price/merge claims track. -/
def coreFields (r : FlatDetail) :
    String × Option ℚ × Option String × Option ℚ × Option String × Option String :=
  (r.url, r.price, r.currency, r.jl_price, r.jl_currency, r.error)

/-- Witness page for C1: the spec's end-to-end scenario — a JSON-LD block
with `price=45000, priceCurrency=USD` and a DOM price element reading
"3 900 000 сом". -/
def pageC1 : Page :=
  { title := none, impressionsText := none, statItems := [], sellerName := none,
    proLabel := false, phoneMask := none, paramItems := [], description := none,
    mapCity := none, dateWidgets := [], idText := none, sliderImgSrcs := [],
    jsonld := some
      { name := none, headline := none,
        offers := some (.odict ⟨some 45000, some "USD", none, none⟩),
        datePosted := none, datePublished := none, loc := none },
    priceTagText := some "3 900 000 сом" }

/-- Counterexample page for C2: JSON-LD price present but its currency
absent, DOM price element reading "3 900 000 сом". -/
def pageC2 : Page :=
  { title := none, impressionsText := none, statItems := [], sellerName := none,
    proLabel := false, phoneMask := none, paramItems := [], description := none,
    mapCity := none, dateWidgets := [], idText := none, sliderImgSrcs := [],
    jsonld := some
      { name := none, headline := none,
        offers := some (.odict ⟨some 45000, none, none, none⟩),
        datePosted := none, datePublished := none, loc := none },
    priceTagText := some "3 900 000 сом" }

/-- Witness record for C10: present-but-falsy rooms count, area and
converted price. -/
def rC10 : FlatDetail :=
  { url := "u", rooms := some "0 комнат", area_m2 := some 0, price := some 0,
    currency := some "USD" }

/-! ## Theorems -/

theorem ratDiv_eq_div (a b : ℚ) : ratDiv a b = a / b := by
  rw [ratDiv, Rat.divInt_eq_div]
  rcases eq_or_ne b 0 with hb | hb
  · subst hb; simp
  · have hbn : (b.num : ℚ) ≠ 0 := by exact_mod_cast Rat.num_ne_zero.mpr hb
    have had : ((a.den : ℚ)) ≠ 0 := by exact_mod_cast a.den_nz
    have hbd : ((b.den : ℚ)) ≠ 0 := by exact_mod_cast b.den_nz
    push_cast
    conv_rhs => rw [← Rat.num_div_den a, ← Rat.num_div_den b]
    field_simp

/-- The two character rewrites commute with the filter: replacing NBSP by
a space and commas by dots and then deleting non-`[\d.,]` characters (the
code's order) produces the same list as deleting first and then replacing
commas (the spec's order). -/
theorem toFloat_pipeline (l : List Char) :
    ((l.map (fun c => if c = nbsp then ' ' else c)).map
        (fun c => if c = ',' then '.' else c)).filter keepNumChar
      = (l.filter keepNumChar).map (fun c => if c = ',' then '.' else c) := by
  induction l with
  | nil => rfl
  | cons c l ih =>
    have hsp : keepNumChar ' ' = false := by decide
    rw [List.map_map] at ih
    simp only [List.map_cons, List.filter_cons]
    by_cases hn : c = nbsp
    · subst hn
      have h1 : nbsp ≠ ',' := by decide
      have h2 : keepNumChar nbsp = false := by decide
      simp [h1, h2, hsp, ih]
    · by_cases hc : c = ','
      · subst hc
        have h1 : keepNumChar ',' = true := by decide
        have h2 : keepNumChar '.' = true := by decide
        simp [hn, h1, h2, ih]
      · simp only [if_neg hn, if_neg hc]
        by_cases hk : keepNumChar c
        · simp [hk, hc, ih]
        · simp [hk, ih]

/-- **C8.** `parseLocaleNumber` (= `to_float`) strips every character that
is not a digit, dot, or comma (tolerating non-breaking spaces and
thousands separators), converts commas to dots, then parses; it returns
`none` on empty input or parse failure (the Lean model is total, so it
never raises).  `to_float_spec` is the spec's wording of that pipeline;
the two agree on every input, and the spec's three examples evaluate as
stated. -/
theorem claim_C8_to_float :
    (∀ s, to_float s = to_float_spec s) ∧
    to_float (some "1 234,56") = some (1234.56 : ℚ) ∧
    to_float (some "") = none ∧
    to_float (some "abc") = none := by
  refine ⟨fun s => ?_, ?_, by decide, by decide⟩
  · match s with
    | none => rfl
    | some t =>
      simp only [to_float, to_float_spec]
      by_cases ht : t = ""
      · simp [ht]
      · simp only [if_neg ht]
        rw [toFloat_pipeline]
  · have h : (1234.56 : ℚ) = mkRat 123456 100 := by
      norm_num [mkRat, Rat.normalize, OfScientific.ofScientific]
    rw [h]; decide

/-- **C6.** `convertToUsd` (= `to_usd`): `none` amount passes through; a
currency code upper-casing to `"USD"` (case-insensitive) returns the
amount unchanged; a code upper-casing to the local currency spellings
`"KGS"`, `"SOM"` or native-script `"СОМ"` divides by the rate and rounds
to 2 decimal places; any other or absent code returns the amount
unchanged; and the spec's three examples evaluate as stated. -/
theorem claim_C6_to_usd :
    (∀ c fx, to_usd none c fx = none) ∧
    (∀ p c fx, pyUpper (c.getD "") = "USD" → to_usd (some p) c fx = some p) ∧
    (∀ p c fx,
      pyUpper (c.getD "") = "KGS" ∨ pyUpper (c.getD "") = "SOM" ∨ pyUpper (c.getD "") = "СОМ" →
      to_usd (some p) c fx = some (pyRound2 (ratDiv p fx))) ∧
    (∀ p c fx, pyUpper (c.getD "") ≠ "USD" →
      ¬(pyUpper (c.getD "") = "KGS" ∨ pyUpper (c.getD "") = "SOM" ∨ pyUpper (c.getD "") = "СОМ") →
      to_usd (some p) c fx = some p) ∧
    to_usd (some 8700) (some "KGS") 87 = some 100 ∧
    to_usd (some 100) (some "USD") 87 = some 100 ∧
    to_usd (some 50) none 87 = some 50 := by
  refine ⟨fun c fx => rfl, fun p c fx h => ?_, fun p c fx h => ?_,
    fun p c fx h1 h2 => ?_, by decide, by decide, by decide⟩
  · simp [to_usd, h]
  · have hne : pyUpper (c.getD "") ≠ "USD" := by
      rcases h with h | h | h <;> rw [h] <;> decide
    simp [to_usd, hne, h]
  · simp [to_usd, h1, h2]

/-- Witness for C6: the hypotheses of each conditional clause are
satisfiable; instantiate the case-insensitive USD clause at `"usd"`. -/
theorem claim_C6_to_usd_witness :
    pyUpper ((some "usd").getD "") = "USD" ∧ to_usd (some 33) (some "usd") 87 = some 33 :=
  ⟨by decide, claim_C6_to_usd.2.1 33 (some "usd") 87 (by decide)⟩

/-- The page's `found` counter never decreases below its starting value. -/
theorem collectPageAnchors_found_mono (resolve : String → String) (maxItems : ℕ)
    (anchors : List String) :
    ∀ links seen found,
      found ≤ (collectPageAnchors resolve maxItems anchors links seen found).found := by
  induction anchors with
  | nil => intro links seen found; simp [collectPageAnchors]
  | cons href rest ih =>
    intro links seen found
    simp only [collectPageAnchors]
    split
    · split
      · exact ih links seen found
      · split
        · simp
        · exact le_trans (Nat.le_succ found) (ih _ _ _)
    · exact ih links seen found

/-- A page whose anchor loop ends with `found` unchanged appended nothing:
the accumulators are unchanged and the cap did not fire. -/
theorem collectPageAnchors_found_eq (resolve : String → String) (maxItems : ℕ)
    (anchors : List String) :
    ∀ links seen found,
      (collectPageAnchors resolve maxItems anchors links seen found).found = found →
      collectPageAnchors resolve maxItems anchors links seen found
        = ⟨links, seen, found, false⟩ := by
  induction anchors with
  | nil => intro links seen found _; simp [collectPageAnchors]
  | cons href rest ih =>
    intro links seen found h
    simp only [collectPageAnchors] at h ⊢
    split at h
    · next hf =>
      rw [if_pos hf]
      split at h
      · next hs => rw [if_pos hs]; exact ih links seen found h
      · next hs =>
        rw [if_neg hs]
        split at h
        · next hc => simp at h
        · next hc =>
          exact absurd h (by
            have := collectPageAnchors_found_mono resolve maxItems rest
              (links ++ [resolve href]) (seen ++ [resolve href]) (found + 1)
            omega)
    · next hf => rw [if_neg hf]; exact ih links seen found h

/-- Length bound for one page: starting below the cap, the loop ends at
exactly `maxItems` links when it capped and strictly below otherwise. -/
theorem collectPageAnchors_length (resolve : String → String) (maxItems : ℕ)
    (anchors : List String) :
    ∀ links seen found, links.length < maxItems →
      ((collectPageAnchors resolve maxItems anchors links seen found).capped = true →
        (collectPageAnchors resolve maxItems anchors links seen found).links.length = maxItems) ∧
      ((collectPageAnchors resolve maxItems anchors links seen found).capped = false →
        (collectPageAnchors resolve maxItems anchors links seen found).links.length < maxItems) := by
  induction anchors with
  | nil => intro links seen found h; simp [collectPageAnchors, h]
  | cons href rest ih =>
    intro links seen found h
    simp only [collectPageAnchors]
    split
    · split
      · exact ih links seen found h
      · split
        · next hcap =>
          constructor
          · intro _
            simp only [List.length_append, List.length_cons, List.length_nil] at hcap ⊢
            omega
          · intro hfalse; simp at hfalse
        · next hcap =>
          refine ih _ _ _ ?_
          simp only [List.length_append, List.length_cons, List.length_nil] at hcap ⊢
          omega
    · exact ih links seen found h

/-- Length bound for the page loop. -/
theorem collectAux_length (resolve : ℕ → String → String) (maxItems : ℕ)
    (pages : List PageResult) :
    ∀ pageNo links seen, links.length < maxItems →
      (collectAux resolve maxItems pages pageNo links seen).length ≤ maxItems := by
  induction pages with
  | nil => intro pageNo links seen h; simpa [collectAux] using le_of_lt h
  | cons p rest ih =>
    intro pageNo links seen h
    match p with
    | .fetchError => simpa [collectAux] using le_of_lt h
    | .fetched anchors =>
      simp only [collectAux]
      have hb := collectPageAnchors_length (resolve pageNo) maxItems anchors links seen 0 h
      split
      · next hcap => exact le_of_eq (hb.1 hcap)
      · next hcap =>
        have hlt := hb.2 (by simpa using hcap)
        split
        · exact le_of_lt hlt
        · exact ih _ _ _ hlt

/-- Once capped, the rest of the page's anchors are ignored. -/
theorem collectPageAnchors_capped_stable (resolve : String → String) (maxItems : ℕ)
    (anchors : List String) :
    ∀ links seen found extra,
      (collectPageAnchors resolve maxItems anchors links seen found).capped = true →
      collectPageAnchors resolve maxItems (anchors ++ extra) links seen found
        = collectPageAnchors resolve maxItems anchors links seen found := by
  induction anchors with
  | nil => intro links seen found extra h; simp [collectPageAnchors] at h
  | cons href rest ih =>
    intro links seen found extra h
    simp only [collectPageAnchors, List.cons_append] at h ⊢
    split at h
    · next hf =>
      simp only [if_pos hf]
      split at h
      · next hs => simp only [if_pos hs]; exact ih _ _ _ _ h
      · next hs =>
        simp only [if_neg hs]
        split at h
        · next hc => simp only [if_pos hc]
        · next hc => simp only [if_neg hc]; exact ih _ _ _ _ h
    · next hf => simp only [if_neg hf]; exact ih _ _ _ _ h

/-- **C4.** The walk emits at most `maxItems` links; once the running
count reaches `maxItems` (the cap fires), any further candidates on the
same page are discarded, the walk returns exactly `maxItems` links, and
no later page is examined (`rest` does not appear in the result).
`0 < maxItems` matches the program's configuration (`MAX_ITEMS = 5000`);
with `maxItems = 0` the after-append cap check would still emit one link. -/
theorem claim_C4_max_items :
    ∀ (resolve : ℕ → String → String) (pages : List PageResult) (maxPages maxItems : ℕ),
      0 < maxItems →
      (collect_list_links resolve pages maxPages maxItems).length ≤ maxItems ∧
      (∀ pageNo links seen found anchors extra,
        (collectPageAnchors (resolve pageNo) maxItems anchors links seen found).capped = true →
        collectPageAnchors (resolve pageNo) maxItems (anchors ++ extra) links seen found
          = collectPageAnchors (resolve pageNo) maxItems anchors links seen found) ∧
      (∀ pageNo links seen anchors rest,
        links.length < maxItems →
        (collectPageAnchors (resolve pageNo) maxItems anchors links seen 0).capped = true →
        collectAux resolve maxItems (.fetched anchors :: rest) pageNo links seen
          = (collectPageAnchors (resolve pageNo) maxItems anchors links seen 0).links ∧
        (collectPageAnchors (resolve pageNo) maxItems anchors links seen 0).links.length
          = maxItems) := by
  intro resolve pages maxPages maxItems hpos
  refine ⟨collectAux_length resolve maxItems _ 1 [] [] (by simpa using hpos),
    fun pageNo links seen found anchors extra h =>
      collectPageAnchors_capped_stable _ _ _ _ _ _ _ h,
    fun pageNo links seen anchors rest hlen hcap =>
      ⟨?_, (collectPageAnchors_length _ _ _ _ _ _ hlen).1 hcap⟩⟩
  simp only [collectAux, hcap, if_true]

/-- Witness for C4: with cap 2 and a page offering three item links the
walk emits exactly the first two and ignores everything after the cap. -/
theorem claim_C4_witness :
    0 < 2 ∧
    (collect_list_links (fun _ h => h) [.fetched ["/item/a", "/item/b", "/item/c"]] 150 2).length
      ≤ 2 ∧
    collectAux (fun _ h => h) 2 [.fetched ["/item/a", "/item/b", "/item/c"], .fetchError] 1 [] []
      = ["/item/a", "/item/b"] :=
  ⟨by decide,
   (claim_C4_max_items (fun _ h => h) [.fetched ["/item/a", "/item/b", "/item/c"]] 150 2
      (by decide)).1,
   by
    rw [((claim_C4_max_items (fun _ h => h) [.fetched ["/item/a", "/item/b", "/item/c"]] 150 2
      (by decide)).2.2 1 [] [] ["/item/a", "/item/b", "/item/c"] [.fetchError] (by decide)
      (by decide)).1]
    decide⟩

/-- **C5.** If a fetched page yields zero links not already seen in this
run (`found == 0`) and the cap did not fire, the walk stops without
fetching any further page (`rest` is ignored) and returns the links
collected so far, with no error signalled (the function totally returns a
link list). -/
theorem claim_C5_feed_exhausted :
    ∀ (resolve : ℕ → String → String) (maxItems pageNo : ℕ) (anchors : List String)
      (rest : List PageResult) (links seen : List String),
      (collectPageAnchors (resolve pageNo) maxItems anchors links seen 0).capped = false →
      (collectPageAnchors (resolve pageNo) maxItems anchors links seen 0).found = 0 →
      collectAux resolve maxItems (.fetched anchors :: rest) pageNo links seen = links := by
  intro resolve maxItems pageNo anchors rest links seen hcap hf
  have he := collectPageAnchors_found_eq (resolve pageNo) maxItems anchors links seen 0 hf
  simp only [collectAux, he]
  simp

/-- Witness for C5: a page repeating an already-seen link stops the walk
even though a further page remains below the page cap. -/
theorem claim_C5_witness :
    (collectPageAnchors ((fun (_ : ℕ) (h : String) => h) 1) 5 ["/item/a"] ["/item/a"]
        ["/item/a"] 0).capped = false ∧
    collectAux (fun _ h => h) 5 [.fetched ["/item/a"], .fetched ["/item/b"]] 1 ["/item/a"]
        ["/item/a"] = ["/item/a"] :=
  ⟨by decide,
   claim_C5_feed_exhausted (fun _ h => h) 5 1 ["/item/a"] [.fetched ["/item/b"]] ["/item/a"]
     ["/item/a"] (by decide) (by decide)⟩

theorem titleStep_core (page : Page) (r : FlatDetail) :
    coreFields (titleStep page r) = coreFields r := rfl

theorem statsStep_core (page : Page) (r : FlatDetail) :
    coreFields (statsStep page r) = coreFields r := by
  simp only [statsStep]
  repeat' split
  all_goals rfl

theorem sellerStep_core (page : Page) (r : FlatDetail) :
    coreFields (sellerStep page r) = coreFields r := rfl

theorem applyParamKeyed_core (key : String) (val : Option String) (vals : List String)
    (r : FlatDetail) : coreFields (applyParamKeyed key val vals r) = coreFields r := by
  unfold applyParamKeyed
  by_cases h1 : containsS key "количество комнат" = true
  · rw [if_pos h1]; rfl
  rw [if_neg h1]
  by_cases h2 : (containsS key "площадь" && containsS key "м2") = true
  · rw [if_pos h2]; rfl
  rw [if_neg h2]
  by_cases h3 : (key.startsWith "этаж:" || key = "этаж:" || containsS key "этаж:") = true
  · rw [if_pos h3]; rfl
  rw [if_neg h3]
  by_cases h4 : containsS key "этажей в доме" = true
  · rw [if_pos h4]; rfl
  rw [if_neg h4]
  by_cases h5 : (containsS key "район бишкека" || containsS key "район") = true
  · rw [if_pos h5]; rfl
  rw [if_neg h5]
  by_cases h6 : containsS key "серия" = true
  · rw [if_pos h6]; rfl
  rw [if_neg h6]
  by_cases h7 : containsS key "правоустанавливающие" = true
  · rw [if_pos h7]; rfl
  rw [if_neg h7]
  by_cases h8 : containsS key "отопление" = true
  · rw [if_pos h8]; rfl
  rw [if_neg h8]
  by_cases h9 : containsS key "ремонт" = true
  · rw [if_pos h9]; rfl
  rw [if_neg h9]
  by_cases h10 : containsS key "дополнительно" = true
  · rw [if_pos h10]; rfl
  rw [if_neg h10]
  by_cases h11 : containsS key "тип предложения" = true
  · rw [if_pos h11]; rfl
  rw [if_neg h11]
  by_cases h12 : containsS key "тип сделки" = true
  · rw [if_pos h12]; rfl
  rw [if_neg h12]

theorem applyParam_core (it : Option String × List String) (r : FlatDetail) :
    coreFields (applyParam it r) = coreFields r := by
  obtain ⟨l, vals⟩ := it
  cases l with
  | none => rfl
  | some t => exact applyParamKeyed_core (pyLower t) (joinVals vals) vals r

theorem paramsStep_core (page : Page) (r : FlatDetail) :
    coreFields (paramsStep page r) = coreFields r := by
  unfold paramsStep
  induction page.paramItems generalizing r with
  | nil => rfl
  | cons it l ih =>
    simp only [List.foldl_cons]
    exact (ih (applyParam it r)).trans (applyParam_core it r)

theorem descriptionStep_core (page : Page) (r : FlatDetail) :
    coreFields (descriptionStep page r) = coreFields r := rfl

theorem cityStep_core (page : Page) (r : FlatDetail) :
    coreFields (cityStep page r) = coreFields r := by
  simp only [cityStep]
  repeat' split
  all_goals rfl

theorem datesIdStep_core (page : Page) (r : FlatDetail) :
    coreFields (datesIdStep page r) = coreFields r := by
  simp only [datesIdStep]
  repeat' split
  all_goals rfl

theorem imagesStep_core (page : Page) (r : FlatDetail) :
    coreFields (imagesStep page r) = coreFields r := by
  simp only [imagesStep]
  repeat' split
  all_goals rfl

/-- All steps before the JSON-LD step leave the six tracked fields at
their initial values. -/
theorem preSteps_core (url : String) (page : Page) :
    coreFields (preSteps url page) = (normalize_url url, none, none, none, none, none) := by
  unfold preSteps
  rw [imagesStep_core, datesIdStep_core, cityStep_core, descriptionStep_core,
    paramsStep_core, sellerStep_core, statsStep_core, titleStep_core]
  rfl

/-- The JSON-LD step does not touch `url`, `price`, `currency`, `error`. -/
theorem jsonldStep_pres (page : Page) (r : FlatDetail) :
    (jsonldStep page r).url = r.url ∧ (jsonldStep page r).price = r.price ∧
    (jsonldStep page r).currency = r.currency ∧ (jsonldStep page r).error = r.error := by
  simp only [jsonldStep]
  repeat' split
  all_goals exact ⟨rfl, rfl, rfl, rfl⟩

/-- Starting from blank shadow fields, the JSON-LD step writes exactly
`jlPriceOfPage`/`jlCurrencyOfPage`. -/
theorem jsonldStep_jl (page : Page) (r : FlatDetail)
    (hp : r.jl_price = none) (hc : r.jl_currency = none) :
    (jsonldStep page r).jl_price = jlPriceOfPage page ∧
    (jsonldStep page r).jl_currency = jlCurrencyOfPage page := by
  simp only [jsonldStep, jlPriceOfPage, jlCurrencyOfPage]
  repeat' split
  all_goals simp_all

/-- The DOM fallback does not touch `url`, `jl_price`, `jl_currency`,
`error`. -/
theorem domPriceStep_pres (page : Page) (r : FlatDetail) :
    (domPriceStep page r).url = r.url ∧ (domPriceStep page r).jl_price = r.jl_price ∧
    (domPriceStep page r).jl_currency = r.jl_currency ∧
    (domPriceStep page r).error = r.error := by
  unfold domPriceStep
  repeat' split
  all_goals exact ⟨rfl, rfl, rfl, rfl⟩

/-- With a JSON-LD price present the DOM fallback is skipped entirely. -/
theorem domPriceStep_of_some (page : Page) (r : FlatDetail) (q : ℚ)
    (h : r.jl_price = some q) : domPriceStep page r = r := by
  unfold domPriceStep
  rw [h]
  simp

/-- Without a JSON-LD price the DOM fallback sets `price` from the price
element text and `currency` from the markers. -/
theorem domPriceStep_of_none (page : Page) (r : FlatDetail)
    (h : r.jl_price = none) (hp : r.price = none) :
    (domPriceStep page r).price = to_float page.priceTagText ∧
    (domPriceStep page r).currency =
      (match page.priceTagText with
       | none => r.currency
       | some txt => dom_currency txt r.currency) := by
  unfold domPriceStep
  rw [h, if_pos rfl]
  cases page.priceTagText with
  | none => exact ⟨hp.symm ▸ rfl, rfl⟩
  | some txt => exact ⟨rfl, rfl⟩

/-- Field behavior of the merge step. -/
theorem mergeStep_fields (r : FlatDetail) :
    (mergeStep r).price = (if r.jl_price ≠ none then r.jl_price else r.price) ∧
    (mergeStep r).currency =
      (if truthyS r.jl_currency then r.jl_currency else r.currency) ∧
    (mergeStep r).url = r.url ∧ (mergeStep r).jl_price = r.jl_price ∧
    (mergeStep r).jl_currency = r.jl_currency ∧ (mergeStep r).error = r.error := by
  unfold mergeStep mergeCurrency
  repeat' split
  all_goals simp_all

/-- Everything claims C1–C3 need to know about a successfully fetched
page: `parsePage` carries the canonicalized URL, no error, the JSON-LD
shadow fields of the page, and the merged price/currency resolved by the
precedence rule. -/
theorem parsePage_spec (url : String) (page : Page) :
    (parsePage url page).url = normalize_url url ∧
    (parsePage url page).error = none ∧
    (parsePage url page).jl_price = jlPriceOfPage page ∧
    (parsePage url page).jl_currency = jlCurrencyOfPage page ∧
    (parsePage url page).price =
      (match jlPriceOfPage page with
       | some q => some q
       | none => to_float page.priceTagText) ∧
    (parsePage url page).currency =
      (if truthyS (jlCurrencyOfPage page) then jlCurrencyOfPage page
       else
         match jlPriceOfPage page with
         | some _ => none
         | none =>
           match page.priceTagText with
           | none => none
           | some txt => dom_currency txt none) := by
  have hpre := preSteps_core url page
  simp only [coreFields, Prod.mk.injEq] at hpre
  obtain ⟨hu, hp, hc, hjp, hjc, he⟩ := hpre
  have hj := jsonldStep_jl page (preSteps url page) hjp hjc
  have hjpres := jsonldStep_pres page (preSteps url page)
  set r1 := jsonldStep page (preSteps url page) with hr1
  have h1u : r1.url = normalize_url url := by rw [hjpres.1, hu]
  have h1p : r1.price = none := by rw [hjpres.2.1, hp]
  have h1c : r1.currency = none := by rw [hjpres.2.2.1, hc]
  have h1e : r1.error = none := by rw [hjpres.2.2.2, he]
  unfold parsePage
  cases hP : jlPriceOfPage page with
  | some q =>
    have hjq : r1.jl_price = some q := hj.1.trans hP
    rw [domPriceStep_of_some page r1 q hjq]
    have mf := mergeStep_fields r1
    refine ⟨?_, ?_, ?_, ?_, ?_, ?_⟩
    · rw [mf.2.2.1, h1u]
    · rw [mf.2.2.2.2.2, h1e]
    · rw [mf.2.2.2.1, hjq]
    · rw [mf.2.2.2.2.1, hj.2]
    · rw [mf.1, hjq]
      simp
    · rw [mf.2.1, hj.2, h1c]
  | none =>
    have hjn : r1.jl_price = none := hj.1.trans hP
    have hd := domPriceStep_of_none page r1 hjn h1p
    have hdp := domPriceStep_pres page r1
    have mf := mergeStep_fields (domPriceStep page r1)
    refine ⟨?_, ?_, ?_, ?_, ?_, ?_⟩
    · rw [mf.2.2.1, hdp.1, h1u]
    · rw [mf.2.2.2.2.2, hdp.2.2.2, h1e]
    · rw [mf.2.2.2.1, hdp.2.1, hjn]
    · rw [mf.2.2.2.2.1, hdp.2.2.1, hj.2]
    · rw [mf.1, hdp.2.1, hjn, if_neg (by simp), hd.1]
    · rw [mf.2.1, hdp.2.2.1, hj.2, hd.2, h1c]

/-- **C1.** When the structured-data extractor yields a price, the merged
record's price equals it; when a structured-data currency is also present
(a non-empty Python-truthy string), the merged currency equals it; and
both merged values are independent of whatever the DOM price element
contained — DOM-derived price/currency reach the merged record only when
the structured-data price is absent. -/
theorem claim_C1_structured_price_wins :
    ∀ (url : String) (page : Page) (q : ℚ),
      (parsePage url page).jl_price = some q →
      (parsePage url page).price = some q ∧
      (∀ c, c ≠ "" → (parsePage url page).jl_currency = some c →
        (parsePage url page).currency = some c) ∧
      (∀ t, (parsePage url { page with priceTagText := t }).price
          = (parsePage url page).price ∧
        (parsePage url { page with priceTagText := t }).currency
          = (parsePage url page).currency) := by
  intro url page q h
  have hs := parsePage_spec url page
  have hP : jlPriceOfPage page = some q := by rw [← hs.2.2.1, h]
  refine ⟨?_, ?_, ?_⟩
  · rw [hs.2.2.2.2.1, hP]
  · intro c hc hjc
    have hC : jlCurrencyOfPage page = some c := by rw [← hs.2.2.2.1, hjc]
    rw [hs.2.2.2.2.2, hC, if_pos (by simp [truthyS, hc])]
  · intro t
    have hs2 := parsePage_spec url { page with priceTagText := t }
    have hP2 : jlPriceOfPage { page with priceTagText := t } = jlPriceOfPage page := rfl
    have hC2 : jlCurrencyOfPage { page with priceTagText := t } = jlCurrencyOfPage page := rfl
    constructor
    · rw [hs2.2.2.2.2.1, hs.2.2.2.2.1, hP2, hP]
    · rw [hs2.2.2.2.2.2, hs.2.2.2.2.2, hC2, hP2, hP]

/-- Witness for C1: on the spec's scenario page the merged record has
`price = 45000, currency = "USD"`. -/
theorem claim_C1_witness :
    (parsePage "https://lalafo.kg/item/1" pageC1).jl_price = some 45000 ∧
    (parsePage "https://lalafo.kg/item/1" pageC1).price = some 45000 ∧
    (parsePage "https://lalafo.kg/item/1" pageC1).currency = some "USD" :=
  ⟨by decide,
   (claim_C1_structured_price_wins "https://lalafo.kg/item/1" pageC1 45000 (by decide)).1,
   (claim_C1_structured_price_wins "https://lalafo.kg/item/1" pageC1 45000 (by decide)).2.1
     "USD" (by decide) (by decide)⟩

/-- Counterexample to **C2** as stated: the code guards the DOM step with
`if row.jl_price is None`, so with a structured-data price present and its
currency absent the merged currency is `None` — NOT the DOM-inferred
`"KGS"` that the unconditional-DOM-first reading predicts. -/
theorem claim_C2_counterexample :
    (parsePage "https://lalafo.kg/item/2" pageC2).jl_price = some 45000 ∧
    (parsePage "https://lalafo.kg/item/2" pageC2).currency = none ∧
    dom_currency "3 900 000 сом" none = some "KGS" ∧
    (parsePage "https://lalafo.kg/item/2" pageC2).currency
      ≠ dom_currency "3 900 000 сом" none :=
  ⟨by decide, by decide, by decide, by decide⟩

/-- **C2 (amended).** The DOM price fallback runs only when the
structured-data price is absent; in that case it sets `price` by
numeric-coercing the price element's text and `currency` from the
USD/local markers (still overridden by a truthy structured-data currency).
When a structured-data price IS present, the DOM step is skipped: the
merged price is the structured one and, when the structured currency is
absent, the merged currency is `none`, not the DOM-inferred one. -/
theorem claim_C2_amended :
    ∀ (url : String) (page : Page),
      ((parsePage url page).jl_price = none →
        (parsePage url page).price = to_float page.priceTagText ∧
        (parsePage url page).currency =
          (if truthyS (parsePage url page).jl_currency then (parsePage url page).jl_currency
           else
             match page.priceTagText with
             | none => none
             | some txt => dom_currency txt none)) ∧
      (∀ q, (parsePage url page).jl_price = some q →
        (parsePage url page).price = some q ∧
        (truthyS (parsePage url page).jl_currency = false →
          (parsePage url page).currency = none)) := by
  intro url page
  have hs := parsePage_spec url page
  constructor
  · intro h
    have hP : jlPriceOfPage page = none := by rw [← hs.2.2.1, h]
    constructor
    · rw [hs.2.2.2.2.1, hP]
    · rw [hs.2.2.2.2.2, hs.2.2.2.1, hP]
  · intro q h
    have hP : jlPriceOfPage page = some q := by rw [← hs.2.2.1, h]
    constructor
    · rw [hs.2.2.2.2.1, hP]
    · intro hf
      rw [hs.2.2.2.1] at hf
      rw [hs.2.2.2.2.2, hP, if_neg (by simp [hf])]

/-- Witness for the amended C2 at the counterexample page. -/
theorem claim_C2_witness :
    (parsePage "https://lalafo.kg/item/2" pageC2).jl_price = some 45000 ∧
    (parsePage "https://lalafo.kg/item/2" pageC2).price = some 45000 ∧
    (parsePage "https://lalafo.kg/item/2" pageC2).currency = none :=
  ⟨by decide,
   ((claim_C2_amended "https://lalafo.kg/item/2" pageC2).2 45000 (by decide)).1,
   ((claim_C2_amended "https://lalafo.kg/item/2" pageC2).2 45000 (by decide)).2 (by decide)⟩

/-- Each row of the deep-scrape loop depends only on the items at the same
position. -/
theorem scrapeRows_get (fetch : String → FetchOutcome) :
    ∀ (links : List String) (i : ℕ),
      (scrapeRows fetch links).get? i
        = (links.get? i).map (fun u => parse_flat_page u fetch) := by
  intro links
  induction links with
  | nil => intro i; cases i <;> rfl
  | cons u rest ih =>
    intro i
    cases i with
    | zero => rfl
    | succ j => simpa [scrapeRows] using ih j

theorem scrapeRows_length (fetch : String → FetchOutcome) (links : List String) :
    (scrapeRows fetch links).length = links.length := by
  induction links with
  | nil => rfl
  | cons u rest ih => simp [scrapeRows, ih]

/-- **C7.** One record per discovered link, in discovery order: the output
has the same length as the link list and its `i`-th row is exactly
`parse_flat_page` of the `i`-th link. -/
theorem claim_C7_one_record_per_link :
    ∀ (fetch : String → FetchOutcome) (links : List String),
      links ≠ [] →
      (scrapeRows fetch links).length = links.length ∧
      (∀ i, (scrapeRows fetch links).get? i
        = (links.get? i).map (fun u => parse_flat_page u fetch)) :=
  fun fetch links _ => ⟨scrapeRows_length fetch links, scrapeRows_get fetch links⟩

/-- Witness for C7 on a singleton run. -/
theorem claim_C7_witness :
    (["https://lalafo.kg/item/4"] : List String) ≠ [] ∧
    (scrapeRows (fun _ => .failure "x") ["https://lalafo.kg/item/4"]).length
      = (["https://lalafo.kg/item/4"] : List String).length :=
  ⟨by decide,
   (claim_C7_one_record_per_link (fun _ => .failure "x") ["https://lalafo.kg/item/4"]
     (by decide)).1⟩

/-- **C10.** In the mint projection every falsy computed value is emitted
as an empty cell, indistinguishable from an absent value: a rooms text
whose first integer is 0, a converted USD price of exactly 0, and an area
of exactly 0.0 produce empty `rooms`, `price_usd` and `square_meters`
cells — the same cells an absent value produces. -/
theorem claim_C10_falsy_cells :
    ∀ (showQ : ℚ → String) (fx : ℚ) (r : FlatDetail),
      (extract_int_rooms r.rooms = some 0 → (mint_row showQ fx r).rooms = "") ∧
      (extract_int_rooms r.rooms = none → (mint_row showQ fx r).rooms = "") ∧
      (r.area_m2 = some 0 → (mint_row showQ fx r).square_meters = "") ∧
      (r.area_m2 = none → (mint_row showQ fx r).square_meters = "") ∧
      (to_usd (if r.price ≠ none then r.price else r.jl_price)
          (if truthyS r.currency then r.currency else r.jl_currency) fx = some 0 →
        (mint_row showQ fx r).price_usd = "") ∧
      (to_usd (if r.price ≠ none then r.price else r.jl_price)
          (if truthyS r.currency then r.currency else r.jl_currency) fx = none →
        (mint_row showQ fx r).price_usd = "") := by
  intro showQ fx r
  refine ⟨fun h => ?_, fun h => ?_, fun h => ?_, fun h => ?_, fun h => ?_, fun h => ?_⟩
  all_goals simp only [mint_row, cellQ, cellN]
  all_goals rw [h]
  all_goals simp

/-- Witness for C10: all three falsy-valued cells come out empty. -/
theorem claim_C10_witness :
    extract_int_rooms rC10.rooms = some 0 ∧
    (mint_row (fun _ => "9.9") 87 rC10).rooms = "" ∧
    (mint_row (fun _ => "9.9") 87 rC10).square_meters = "" ∧
    (mint_row (fun _ => "9.9") 87 rC10).price_usd = "" :=
  ⟨by decide,
   (claim_C10_falsy_cells (fun _ => "9.9") 87 rC10).1 (by decide),
   (claim_C10_falsy_cells (fun _ => "9.9") 87 rC10).2.2.1 (by decide),
   (claim_C10_falsy_cells (fun _ => "9.9") 87 rC10).2.2.2.2.1 (by decide)⟩

/-! ### Character-level facts for the URL roundtrip -/

theorem Char_eq_iff_toNat (c d : Char) : c = d ↔ c.toNat = d.toNat :=
  ⟨fun h => h ▸ rfl, fun h => Char.eq_of_val_eq (UInt32.ext h)⟩

theorem Char_toNat_ofNat (n : ℕ) (h : n < 55296) : (Char.ofNat n).toNat = n := by
  have hv : n.isValidChar := Or.inl h
  unfold Char.ofNat
  rw [dif_pos hv]
  rfl

theorem pyLowerChar_fix {c : Char} (h1 : ¬(65 ≤ c.toNat ∧ c.toNat ≤ 90))
    (h2 : ¬(1040 ≤ c.toNat ∧ c.toNat ≤ 1071)) (h3 : ¬c.toNat = 1025) :
    pyLowerChar c = c := by
  unfold pyLowerChar
  rw [if_neg h1, if_neg h2, if_neg h3]

theorem pyLowerChar_upper {c : Char} (h : 65 ≤ c.toNat ∧ c.toNat ≤ 90) :
    (pyLowerChar c).toNat = c.toNat + 32 := by
  unfold pyLowerChar
  rw [if_pos h]
  exact Char_toNat_ofNat _ (by omega)

theorem pyLowerChar_idem (c : Char) : pyLowerChar (pyLowerChar c) = pyLowerChar c := by
  by_cases h1 : 65 ≤ c.toNat ∧ c.toNat ≤ 90
  · have ht := pyLowerChar_upper h1
    exact pyLowerChar_fix (by omega) (by omega) (by omega)
  · by_cases h2 : 1040 ≤ c.toNat ∧ c.toNat ≤ 1071
    · have ht : (pyLowerChar c).toNat = c.toNat + 32 := by
        unfold pyLowerChar
        rw [if_neg h1, if_pos h2]
        exact Char_toNat_ofNat _ (by omega)
      exact pyLowerChar_fix (by omega) (by omega) (by omega)
    · by_cases h3 : c.toNat = 1025
      · have ht : (pyLowerChar c).toNat = 1105 := by
          unfold pyLowerChar
          rw [if_neg h1, if_neg h2, if_pos h3]
          exact Char_toNat_ofNat _ (by omega)
        exact pyLowerChar_fix (by omega) (by omega) (by omega)
      · rw [pyLowerChar_fix h1 h2 h3, pyLowerChar_fix h1 h2 h3]

theorem schemeChar_iff (c : Char) : schemeChar c = true ↔
    (65 ≤ c.toNat ∧ c.toNat ≤ 90) ∨ (97 ≤ c.toNat ∧ c.toNat ≤ 122) ∨
    (48 ≤ c.toNat ∧ c.toNat ≤ 57) ∨ c.toNat = 43 ∨ c.toNat = 45 ∨ c.toNat = 46 := by
  unfold schemeChar isAsciiAlpha isAsciiUpper isAsciiLower isAsciiDigit
  simp only [Bool.or_eq_true, Bool.and_eq_true, decide_eq_true_eq, Char_eq_iff_toNat]
  rw [show (Char.toNat '+') = 43 from rfl, show (Char.toNat '-') = 45 from rfl,
    show (Char.toNat '.') = 46 from rfl]
  constructor <;> intro h <;> omega

theorem isAsciiAlpha_iff (c : Char) : isAsciiAlpha c = true ↔
    (65 ≤ c.toNat ∧ c.toNat ≤ 90) ∨ (97 ≤ c.toNat ∧ c.toNat ≤ 122) := by
  unfold isAsciiAlpha isAsciiUpper isAsciiLower
  simp only [Bool.or_eq_true, Bool.and_eq_true, decide_eq_true_eq]

/-- Where `pyLowerChar` sends a scheme character. -/
theorem pyLowerChar_scheme_toNat {c : Char} (h : schemeChar c = true) :
    (97 ≤ (pyLowerChar c).toNat ∧ (pyLowerChar c).toNat ≤ 122) ∨
    (48 ≤ (pyLowerChar c).toNat ∧ (pyLowerChar c).toNat ≤ 57) ∨
    (pyLowerChar c).toNat = 43 ∨ (pyLowerChar c).toNat = 45 ∨
    (pyLowerChar c).toNat = 46 := by
  rcases (schemeChar_iff c).mp h with h | h | h | h | h | h
  · have ht := pyLowerChar_upper h
    omega
  all_goals rw [pyLowerChar_fix (by omega) (by omega) (by omega)]
  all_goals omega

theorem schemeChar_lower {c : Char} (h : schemeChar c = true) :
    schemeChar (pyLowerChar c) = true := by
  rw [schemeChar_iff]
  rcases pyLowerChar_scheme_toNat h with h2 | h2 | h2 | h2 | h2 <;> omega

theorem isAsciiAlpha_lower {c : Char} (h : isAsciiAlpha c = true) :
    isAsciiAlpha (pyLowerChar c) = true := by
  rw [isAsciiAlpha_iff]
  rcases (isAsciiAlpha_iff c).mp h with h2 | h2
  · have ht := pyLowerChar_upper h2
    omega
  · rw [pyLowerChar_fix (by omega) (by omega) (by omega)]
    omega

/-- A lowered scheme character is none of the URL delimiters, is not
C0-or-space and is not an unsafe byte. -/
theorem pyLowerChar_scheme_safe {c : Char} (h : schemeChar c = true) :
    pyLowerChar c ≠ ':' ∧ pyLowerChar c ≠ '/' ∧ pyLowerChar c ≠ '?' ∧
    pyLowerChar c ≠ '#' ∧ isC0OrSpace (pyLowerChar c) = false ∧
    isUnsafeUrlChar (pyLowerChar c) = false := by
  have hb := pyLowerChar_scheme_toNat h
  have h58 : (':' : Char).toNat = 58 := rfl
  have h47 : ('/' : Char).toNat = 47 := rfl
  have h63 : ('?' : Char).toNat = 63 := rfl
  have h35 : ('#' : Char).toNat = 35 := rfl
  refine ⟨?_, ?_, ?_, ?_, ?_, ?_⟩
  · intro he
    have := congrArg Char.toNat he
    omega
  · intro he
    have := congrArg Char.toNat he
    omega
  · intro he
    have := congrArg Char.toNat he
    omega
  · intro he
    have := congrArg Char.toNat he
    omega
  · unfold isC0OrSpace
    simp only [decide_eq_false_iff_not]
    omega
  · unfold isUnsafeUrlChar
    have h9 : ('\t' : Char).toNat = 9 := rfl
    have h10 : ('\n' : Char).toNat = 10 := rfl
    have h13 : ('\r' : Char).toNat = 13 := rfl
    simp only [Bool.or_eq_false_iff, decide_eq_false_iff_not, Char_eq_iff_toNat]
    omega

/-! ### List-level facts for the URL roundtrip -/

theorem splitFirst_of_not_mem {sep : Char} {cs : List Char} (h : sep ∉ cs) :
    splitFirst sep cs = (cs, none) := by
  induction cs with
  | nil => rfl
  | cons c t ih =>
    unfold splitFirst
    rw [if_neg (fun he => h (by rw [← he]; exact List.mem_cons_self c t)),
      ih (fun hm => h (List.mem_cons_of_mem c hm))]

theorem splitFirst_append {sep : Char} {a : List Char} (b : List Char) (h : sep ∉ a) :
    splitFirst sep (a ++ sep :: b) = (a, some b) := by
  induction a with
  | nil => simp [splitFirst]
  | cons c t ih =>
    have hc : ¬c = sep := fun he => h (he ▸ List.mem_cons_self c t)
    show splitFirst sep (c :: (t ++ sep :: b)) = (c :: t, some b)
    unfold splitFirst
    rw [if_neg hc, ih (fun hm => h (List.mem_cons_of_mem c hm))]

theorem splitFirst_fst_not_mem (sep : Char) : ∀ cs, sep ∉ (splitFirst sep cs).1 := by
  intro cs
  induction cs with
  | nil => simp [splitFirst]
  | cons c t ih =>
    unfold splitFirst
    by_cases hc : c = sep
    · rw [if_pos hc]
      simp
    · rw [if_neg hc]
      intro hm
      rcases List.mem_cons.mp hm with he | hm2
      · exact hc he.symm
      · exact ih hm2

theorem splitFirst_decomp (sep : Char) : ∀ cs,
    cs = (splitFirst sep cs).1 ++
      (match (splitFirst sep cs).2 with | none => [] | some b => sep :: b) := by
  intro cs
  induction cs with
  | nil => rfl
  | cons c t ih =>
    unfold splitFirst
    by_cases hc : c = sep
    · rw [if_pos hc]
      simpa using hc
    · rw [if_neg hc]
      simpa using ih

theorem takeWhile_append_all {q : Char → Bool} {n : List Char} (p : List Char)
    (hn : ∀ c ∈ n, q c = true)
    (hp : match p with | [] => True | c :: _ => q c = false) :
    (n ++ p).takeWhile q = n ∧ (n ++ p).dropWhile q = p := by
  induction n with
  | nil =>
    match p with
    | [] => exact ⟨rfl, rfl⟩
    | c :: t =>
      simp only [List.nil_append]
      exact ⟨List.takeWhile_cons_of_neg (by simp [hp]),
             List.dropWhile_cons_of_neg (by simp [hp])⟩
  | cons c t ih =>
    have hc : q c = true := hn c (List.mem_cons_self c t)
    have iht := ih (fun d hd => hn d (List.mem_cons_of_mem c hd))
    simp only [List.cons_append]
    constructor
    · rw [List.takeWhile_cons_of_pos (by simp [hc]), iht.1]
    · rw [List.dropWhile_cons_of_pos (by simp [hc]), iht.2]

theorem dropWhile_head_false (q : Char → Bool) : ∀ l : List Char,
    match l.dropWhile q with | [] => True | c :: _ => q c = false := by
  intro l
  induction l with
  | nil => trivial
  | cons c t ih =>
    by_cases hc : q c = true
    · rw [List.dropWhile_cons_of_pos hc]
      exact ih
    · rw [List.dropWhile_cons_of_neg hc]
      exact Bool.eq_false_iff.mpr hc

theorem unsafe_isC0 {c : Char} (h : isUnsafeUrlChar c = true) : isC0OrSpace c = true := by
  unfold isUnsafeUrlChar at h
  unfold isC0OrSpace
  simp only [Bool.or_eq_true, decide_eq_true_eq, Char_eq_iff_toNat] at h
  simp only [decide_eq_true_eq]
  have h9 : Char.toNat '\t' = 9 := rfl
  have h10 : Char.toNat '\n' = 10 := rfl
  have h13 : Char.toNat '\r' = 13 := rfl
  omega

theorem cleanUrl_mem {l : List Char} {c : Char} (h : c ∈ cleanUrl l) :
    isUnsafeUrlChar c = false := by
  unfold cleanUrl at h
  have := (List.mem_filter.mp h).2
  simpa using this

theorem cleanUrl_head (l : List Char) :
    match cleanUrl l with | [] => True | c :: _ => isC0OrSpace c = false := by
  unfold cleanUrl
  have hd := dropWhile_head_false isC0OrSpace l
  rcases hdw : l.dropWhile isC0OrSpace with _ | ⟨c, t⟩
  · simp
  · rw [hdw] at hd
    have hcu : isUnsafeUrlChar c = false := by
      rcases hu : isUnsafeUrlChar c with _ | _
      · rfl
      · exact absurd (unsafe_isC0 hu) (by simp [hd])
    rw [List.filter_cons_of_pos (by simp [hcu])]
    exact hd

theorem cleanUrl_eq_self {l : List Char}
    (hu : ∀ c ∈ l, isUnsafeUrlChar c = false)
    (hh : match l with | [] => True | c :: _ => isC0OrSpace c = false) :
    cleanUrl l = l := by
  unfold cleanUrl
  have hdw : l.dropWhile isC0OrSpace = l := by
    match l with
    | [] => rfl
    | c :: t => exact List.dropWhile_cons_of_neg (by simp [hh])
  rw [hdw]
  exact List.filter_eq_self.mpr (fun c hc => by simp [hu c hc])

/-! ### Parser-level facts for the URL roundtrip -/

theorem schemeChar_safe {c : Char} (h : schemeChar c = true) :
    c ≠ ':' ∧ c ≠ '/' ∧ c ≠ '?' ∧ c ≠ '#' ∧ isC0OrSpace c = false ∧
    isUnsafeUrlChar c = false := by
  have hb := (schemeChar_iff c).mp h
  have h58 : (':' : Char).toNat = 58 := rfl
  have h47 : ('/' : Char).toNat = 47 := rfl
  have h63 : ('?' : Char).toNat = 63 := rfl
  have h35 : ('#' : Char).toNat = 35 := rfl
  refine ⟨fun he => ?_, fun he => ?_, fun he => ?_, fun he => ?_, ?_, ?_⟩
  · have := congrArg Char.toNat he
    omega
  · have := congrArg Char.toNat he
    omega
  · have := congrArg Char.toNat he
    omega
  · have := congrArg Char.toNat he
    omega
  · unfold isC0OrSpace
    simp only [decide_eq_false_iff_not]
    omega
  · unfold isUnsafeUrlChar
    have h9 : Char.toNat '\t' = 9 := rfl
    have h10 : Char.toNat '\n' = 10 := rfl
    have h13 : Char.toNat '\r' = 13 := rfl
    simp only [Bool.or_eq_false_iff, decide_eq_false_iff_not, Char_eq_iff_toNat]
    omega

/-- `urlsplitL` written without the `let`s. -/
theorem urlsplitL_eq (u : List Char) :
    urlsplitL u =
      ⟨(parseScheme (cleanUrl u)).1,
       (parseNetloc (parseScheme (cleanUrl u)).2).1,
       (splitFirst '?' (splitFirst '#' (parseNetloc (parseScheme (cleanUrl u)).2).2).1).1,
       ((splitFirst '?' (splitFirst '#' (parseNetloc (parseScheme (cleanUrl u)).2).2).1).2).getD [],
       ((splitFirst '#' (parseNetloc (parseScheme (cleanUrl u)).2).2).2).getD []⟩ := rfl

/-- How `parseScheme` can behave: fail (identity), or peel a valid
scheme. -/
theorem parseScheme_cases (cs : List Char) :
    parseScheme cs = ([], cs) ∨
    (∃ pre rest, cs = pre ++ ':' :: rest ∧ ':' ∉ pre ∧ pre ≠ [] ∧
      pre.all schemeChar = true ∧ (∃ c0 t, pre = c0 :: t ∧ isAsciiAlpha c0 = true) ∧
      parseScheme cs = (pre.map pyLowerChar, rest)) := by
  have hd := splitFirst_decomp ':' cs
  have hnm := splitFirst_fst_not_mem ':' cs
  rcases hsp : splitFirst ':' cs with ⟨pre, o⟩
  rw [hsp] at hd hnm
  unfold parseScheme
  simp only [hsp]
  match o, hd with
  | none, hd => exact Or.inl rfl
  | some rest, hd =>
    match pre, hnm with
    | [], _ => exact Or.inl rfl
    | c0 :: t, hnm =>
      by_cases hcond : isAsciiAlpha c0 && (c0 :: t).all schemeChar
      · right
        refine ⟨c0 :: t, rest, hd, hnm, by simp, ?_, ⟨c0, t, rfl, ?_⟩, ?_⟩
        · exact (Bool.and_eq_true _ _).mp hcond |>.2
        · exact (Bool.and_eq_true _ _).mp hcond |>.1
        · simp only [if_pos hcond]
      · left
        simp only [if_neg hcond]

/-- Re-parsing a reassembled `scheme:rest` recovers the components when
the scheme is valid and already lowercase. -/
theorem parseScheme_reassemble {sc : List Char} (rest : List Char) (hne : sc ≠ [])
    (hall : sc.all schemeChar = true)
    (hhead : ∃ c0 t, sc = c0 :: t ∧ isAsciiAlpha c0 = true)
    (hfix : sc.map pyLowerChar = sc) :
    parseScheme (sc ++ ':' :: rest) = (sc, rest) := by
  have hnc : ':' ∉ sc := fun hm =>
    absurd (List.all_eq_true.mp hall _ hm) (by decide)
  obtain ⟨c0, t, hsc, ha⟩ := hhead
  subst hsc
  unfold parseScheme
  simp only [splitFirst_append rest hnc]
  rw [if_pos (by simp [ha, hall] : (isAsciiAlpha c0 && (c0 :: t).all schemeChar) = true), hfix]

/-- `parseScheme` fails on anything whose first character is not an ASCII
letter. -/
theorem parseScheme_fail_head {c : Char} (t : List Char) (h : isAsciiAlpha c = false) :
    parseScheme (c :: t) = ([], c :: t) := by
  have hd := splitFirst_decomp ':' (c :: t)
  rcases hsp : splitFirst ':' (c :: t) with ⟨pre, o⟩
  rw [hsp] at hd
  unfold parseScheme
  simp only [hsp]
  match o, hd with
  | none, hd => rfl
  | some rest, hd =>
    match pre, hd with
    | [], _ => rfl
    | c0 :: t2, hd =>
      have h2 : c :: t = c0 :: (t2 ++ ':' :: rest) := hd
      have hc0 : c0 = c := ((List.cons.injEq _ _ _ _).mp h2).1.symm
      show (if (isAsciiAlpha c0 && (c0 :: t2).all schemeChar) = true
        then (List.map pyLowerChar (c0 :: t2), rest) else ([], c :: t)) = ([], c :: t)
      rw [if_neg (by rw [hc0, h]; simp)]

/-- If `parseScheme` failed on `cs`, it also fails on any prefix of `cs`
(the scheme decision depends only on the text before the first colon). -/
theorem parseScheme_prefix_fail {cs p tail : List Char} (hcs : cs = p ++ tail)
    (h : parseScheme cs = ([], cs)) : parseScheme p = ([], p) := by
  have hd := splitFirst_decomp ':' p
  rcases hsp : splitFirst ':' p with ⟨preP, o⟩
  rw [hsp] at hd
  unfold parseScheme
  simp only [hsp]
  match o, hd with
  | none, hd => rfl
  | some restP, hd =>
    have hd2 : p = preP ++ ':' :: restP := hd
    have hnmP := splitFirst_fst_not_mem ':' p
    rw [hsp] at hnmP
    have hnmP2 : ':' ∉ preP := hnmP
    have hcs2 : cs = preP ++ ':' :: (restP ++ tail) := by
      rw [hcs, hd2]
      simp
    have hspcs : splitFirst ':' cs = (preP, some (restP ++ tail)) := by
      rw [hcs2]
      exact splitFirst_append _ hnmP2
    unfold parseScheme at h
    simp only [hspcs] at h
    match preP, h with
    | [], _ => rfl
    | c0 :: t2, h =>
      have h3 : (if (isAsciiAlpha c0 && (c0 :: t2).all schemeChar) = true
        then (List.map pyLowerChar (c0 :: t2), restP ++ tail) else ([], cs)) = ([], cs) := h
      by_cases hcond : (isAsciiAlpha c0 && (c0 :: t2).all schemeChar) = true
      · rw [if_pos hcond] at h3
        exact absurd (congrArg Prod.fst h3) (by simp)
      · show (if (isAsciiAlpha c0 && (c0 :: t2).all schemeChar) = true
          then (List.map pyLowerChar (c0 :: t2), restP) else ([], p)) = ([], p)
        rw [if_neg hcond]

theorem parseNetloc_slash (r : List Char) :
    parseNetloc ('/' :: '/' :: r) =
      (r.takeWhile (fun c => !netlocEndChar c), r.dropWhile (fun c => !netlocEndChar c)) := rfl

theorem parseNetloc_not_slash {cs : List Char} (h : cs.take 2 ≠ ['/', '/']) :
    parseNetloc cs = ([], cs) := by
  unfold parseNetloc
  split
  · next r heq =>
    exfalso
    exact h rfl
  · rfl

/-- How `parseNetloc` can behave. -/
theorem parseNetloc_cases (x : List Char) :
    (∃ r, x = '/' :: '/' :: r ∧
      parseNetloc x = (r.takeWhile (fun c => !netlocEndChar c),
                       r.dropWhile (fun c => !netlocEndChar c))) ∨
    (parseNetloc x = ([], x) ∧ x.take 2 ≠ ['/', '/']) := by
  match x with
  | [] => exact Or.inr ⟨rfl, by simp⟩
  | [c] => exact Or.inr ⟨parseNetloc_not_slash (by simp), by simp⟩
  | c1 :: c2 :: r =>
    by_cases h1 : c1 = '/'
    · by_cases h2 : c2 = '/'
      · subst h1
        subst h2
        exact Or.inl ⟨r, rfl, rfl⟩
      · exact Or.inr ⟨parseNetloc_not_slash (by simp [h2]), by simp [h2]⟩
    · exact Or.inr ⟨parseNetloc_not_slash (by simp [h1]), by simp [h1]⟩

theorem parseNetloc_fst_pred (x : List Char) :
    ∀ c ∈ (parseNetloc x).1, netlocEndChar c = false := by
  rcases parseNetloc_cases x with ⟨r, hx, hp⟩ | ⟨hp, _⟩
  · intro c hc
    rw [hp] at hc
    have := List.mem_takeWhile_imp hc
    simpa using this
  · intro c hc
    rw [hp] at hc
    simp at hc

theorem parseNetloc_fst_mem (x : List Char) : ∀ c ∈ (parseNetloc x).1, c ∈ x := by
  rcases parseNetloc_cases x with ⟨r, hx, hp⟩ | ⟨hp, _⟩
  · intro c hc
    rw [hp] at hc
    rw [hx]
    exact List.mem_cons_of_mem _ (List.mem_cons_of_mem _
      ((List.takeWhile_sublist _).subset hc))
  · intro c hc
    rw [hp] at hc
    simp at hc

theorem parseNetloc_snd_mem (x : List Char) : ∀ c ∈ (parseNetloc x).2, c ∈ x := by
  rcases parseNetloc_cases x with ⟨r, hx, hp⟩ | ⟨hp, _⟩
  · intro c hc
    rw [hp] at hc
    rw [hx]
    exact List.mem_cons_of_mem _ (List.mem_cons_of_mem _
      ((List.dropWhile_sublist _).subset hc))
  · intro c hc
    rw [hp] at hc
    exact hc

theorem mem_cleanUrl {l : List Char} {c : Char} (h : c ∈ cleanUrl l) : c ∈ l := by
  unfold cleanUrl at h
  exact (List.dropWhile_sublist _).subset ((List.filter_sublist _).subset h)

theorem parseScheme_snd_mem (cs : List Char) : ∀ c ∈ (parseScheme cs).2, c ∈ cs := by
  rcases parseScheme_cases cs with hps | ⟨pre, rest, hdec, _, _, _, _, hps⟩
  · intro c hc
    rw [hps] at hc
    exact hc
  · intro c hc
    rw [hps] at hc
    rw [hdec]
    exact List.mem_append_right _ (List.mem_cons_of_mem _ hc)

theorem splitFirst_fst_mem (sep : Char) (cs : List Char) :
    ∀ c ∈ (splitFirst sep cs).1, c ∈ cs := by
  intro c hc
  have hd := splitFirst_decomp sep cs
  rw [hd]
  exact List.mem_append_left _ hc

/-- When the remainder after the scheme began with `//`, the path is empty
or `/`-rooted (it is a `?`/`#`-free prefix of the after-netloc rest, which
starts with a delimiter or is empty). -/
theorem path_shape_of_slash {x : List Char} (r : List Char)
    (hp2 : (parseNetloc x).2 = r.dropWhile (fun c => !netlocEndChar c))
    {p tail : List Char} (hpd : (parseNetloc x).2 = p ++ tail)
    (hq : '?' ∉ p) (hf : '#' ∉ p) :
    p = [] ∨ ∃ t, p = '/' :: t := by
  rcases p with _ | ⟨c, pt⟩
  · exact Or.inl rfl
  · right
    have hhead := dropWhile_head_false (fun c => !netlocEndChar c) r
    rw [← hp2, hpd, List.cons_append] at hhead
    have hend : netlocEndChar c = true := by simpa using hhead
    unfold netlocEndChar at hend
    simp only [Bool.or_eq_true, decide_eq_true_eq] at hend
    rcases hend with (hc | hc) | hc
    · exact ⟨pt, by rw [hc]⟩
    · subst hc
      exact absurd (List.mem_cons_self _ pt) hq
    · subst hc
      exact absurd (List.mem_cons_self _ pt) hf

/-- `parseScheme` fails on an empty or `/`-rooted path. -/
theorem parseScheme_fail_of_shape {p : List Char} (h : p = [] ∨ ∃ t, p = '/' :: t) :
    parseScheme p = ([], p) := by
  rcases h with h | ⟨t, h⟩
  · subst h
    rfl
  · subst h
    exact parseScheme_fail_head t (by decide)

theorem map_pyLowerChar_idem (l : List Char) :
    (l.map pyLowerChar).map pyLowerChar = l.map pyLowerChar := by
  induction l with
  | nil => rfl
  | cons a t ih => simp [pyLowerChar_idem, ih]

/-- Everything the roundtrip needs to know about the components
`urlsplit` produces. -/
theorem urlsplitL_facts (u : List Char) :
    (urlsplitL u).scheme.all schemeChar = true ∧
    ((urlsplitL u).scheme = [] ∨
      ∃ c0 t, (urlsplitL u).scheme = c0 :: t ∧ isAsciiAlpha c0 = true) ∧
    (urlsplitL u).scheme.map pyLowerChar = (urlsplitL u).scheme ∧
    (∀ c ∈ (urlsplitL u).netloc, netlocEndChar c = false) ∧
    (∀ c ∈ (urlsplitL u).netloc, isUnsafeUrlChar c = false) ∧
    '?' ∉ (urlsplitL u).path ∧
    '#' ∉ (urlsplitL u).path ∧
    (∀ c ∈ (urlsplitL u).path, isUnsafeUrlChar c = false) ∧
    ((urlsplitL u).netloc ≠ [] →
      ((urlsplitL u).path = [] ∨ ∃ t, (urlsplitL u).path = '/' :: t)) ∧
    ((urlsplitL u).scheme = [] →
      parseScheme (urlsplitL u).path = ([], (urlsplitL u).path)) ∧
    ((urlsplitL u).scheme = [] →
      ((urlsplitL u).path = [] ∨
        ∃ c0 t, (urlsplitL u).path = c0 :: t ∧ isC0OrSpace c0 = false)) := by
  have hsch : (urlsplitL u).scheme = (parseScheme (cleanUrl u)).1 := rfl
  have hnet : (urlsplitL u).netloc = (parseNetloc (parseScheme (cleanUrl u)).2).1 := rfl
  have hpath : (urlsplitL u).path
      = (splitFirst '?' (splitFirst '#' (parseNetloc (parseScheme (cleanUrl u)).2).2).1).1 :=
    rfl
  have hpmem : ∀ c ∈ (urlsplitL u).path, c ∈ cleanUrl u := by
    intro c hc
    rw [hpath] at hc
    exact parseScheme_snd_mem _ c (parseNetloc_snd_mem _ c
      (splitFirst_fst_mem '#' _ c (splitFirst_fst_mem '?' _ c hc)))
  have hq : '?' ∉ (urlsplitL u).path := by
    rw [hpath]
    exact splitFirst_fst_not_mem '?' _
  have hf : '#' ∉ (urlsplitL u).path := by
    intro hc
    rw [hpath] at hc
    exact splitFirst_fst_not_mem '#' _ (splitFirst_fst_mem '?' _ _ hc)
  have hpdec : ∃ tail,
      (parseNetloc (parseScheme (cleanUrl u)).2).2 = (urlsplitL u).path ++ tail := by
    have h2 := splitFirst_decomp '#' (parseNetloc (parseScheme (cleanUrl u)).2).2
    have h1 := splitFirst_decomp '?' (splitFirst '#'
      (parseNetloc (parseScheme (cleanUrl u)).2).2).1
    refine ⟨(match (splitFirst '?' (splitFirst '#'
        (parseNetloc (parseScheme (cleanUrl u)).2).2).1).2 with
        | none => [] | some b => '?' :: b) ++
      (match (splitFirst '#' (parseNetloc (parseScheme (cleanUrl u)).2).2).2 with
        | none => [] | some b => '#' :: b), ?_⟩
    rw [hpath, ← List.append_assoc, ← h1, ← h2]
  refine ⟨?_, ?_, ?_, ?_, ?_, hq, hf, ?_, ?_, ?_, ?_⟩
  · rcases parseScheme_cases (cleanUrl u) with hL |
      ⟨pre, rest, hdec, hnc, hpne, hall, ⟨c0, t, hpre, ha⟩, hR⟩
    · simp [hsch, hL]
    · rw [hsch, hR]
      refine List.all_eq_true.mpr ?_
      intro x hx
      obtain ⟨y, hy, hxy⟩ := List.mem_map.mp hx
      rw [← hxy]
      exact schemeChar_lower (List.all_eq_true.mp hall _ hy)
  · rcases parseScheme_cases (cleanUrl u) with hL |
      ⟨pre, rest, hdec, hnc, hpne, hall, ⟨c0, t, hpre, ha⟩, hR⟩
    · left
      simp [hsch, hL]
    · right
      refine ⟨pyLowerChar c0, t.map pyLowerChar, ?_, isAsciiAlpha_lower ha⟩
      rw [hsch, hR, hpre]
      rfl
  · rcases parseScheme_cases (cleanUrl u) with hL |
      ⟨pre, rest, hdec, hnc, hpne, hall, ⟨c0, t, hpre, ha⟩, hR⟩
    · simp [hsch, hL]
    · rw [hsch, hR]
      exact map_pyLowerChar_idem pre
  · rw [hnet]
    exact parseNetloc_fst_pred _
  · intro c hc
    rw [hnet] at hc
    exact cleanUrl_mem (parseScheme_snd_mem _ c (parseNetloc_fst_mem _ c hc))
  · intro c hc
    exact cleanUrl_mem (hpmem c hc)
  · intro hne
    rcases parseNetloc_cases (parseScheme (cleanUrl u)).2 with ⟨r, hx, hp⟩ | ⟨hp, _⟩
    · obtain ⟨tail, hpd⟩ := hpdec
      exact path_shape_of_slash r (by rw [hp]) hpd hq hf
    · exact absurd (by rw [hnet, hp]) hne
  · intro hsc0
    rcases parseScheme_cases (cleanUrl u) with hL |
      ⟨pre, rest, hdec, hnc, hpne, hall, ⟨c0, t, hpre, ha⟩, hR⟩
    · rcases parseNetloc_cases (parseScheme (cleanUrl u)).2 with ⟨r, hx, hp⟩ | ⟨hp, _⟩
      · obtain ⟨tail, hpd⟩ := hpdec
        exact parseScheme_fail_of_shape (path_shape_of_slash r (by rw [hp]) hpd hq hf)
      · obtain ⟨tail, hpd⟩ := hpdec
        rw [hp, hL] at hpd
        have hpd2 : cleanUrl u = (urlsplitL u).path ++ tail := hpd
        exact parseScheme_prefix_fail hpd2 hL
    · exfalso
      rw [hsch, hR, hpre] at hsc0
      simp at hsc0
  · intro hsc0
    rcases parseScheme_cases (cleanUrl u) with hL |
      ⟨pre, rest, hdec, hnc, hpne, hall, ⟨c0, t, hpre, ha⟩, hR⟩
    · rcases parseNetloc_cases (parseScheme (cleanUrl u)).2 with ⟨r, hx, hp⟩ | ⟨hp, _⟩
      · obtain ⟨tail, hpd⟩ := hpdec
        rcases path_shape_of_slash r (by rw [hp]) hpd hq hf with hp0 | ⟨t2, hp0⟩
        · exact Or.inl hp0
        · exact Or.inr ⟨'/', t2, hp0, by decide⟩
      · obtain ⟨tail, hpd⟩ := hpdec
        rw [hp, hL] at hpd
        rcases hps : (urlsplitL u).path with _ | ⟨c0, pt⟩
        · exact Or.inl rfl
        · right
          refine ⟨c0, pt, rfl, ?_⟩
          have hhead := cleanUrl_head u
          rw [hps, List.cons_append] at hpd
          have hpd2 : cleanUrl u = c0 :: (pt ++ tail) := hpd
          rw [hpd2] at hhead
          exact hhead
    · exfalso
      rw [hsch, hR, hpre] at hsc0
      simp at hsc0

/-- An ASCII letter is not a control character or space. -/
theorem isAsciiAlpha_not_C0 {c : Char} (h : isAsciiAlpha c = true) :
    isC0OrSpace c = false := by
  have hb := (isAsciiAlpha_iff c).mp h
  unfold isC0OrSpace
  simp only [decide_eq_false_iff_not]
  omega

/-- Computing `urlsplit` from equations for each stage. -/
theorem urlsplitL_components {x cs' sc' rest' nl' r2' : List Char}
    (hclean : cleanUrl x = cs')
    (hps : parseScheme cs' = (sc', rest'))
    (hpn : parseNetloc rest' = (nl', r2'))
    {p1 : List Char} {o1 : Option (List Char)}
    (hs1 : splitFirst '#' r2' = (p1, o1))
    {p2 : List Char} {o2 : Option (List Char)}
    (hs2 : splitFirst '?' p1 = (p2, o2)) :
    urlsplitL x = ⟨sc', nl', p2, o2.getD [], o1.getD []⟩ := by
  rw [urlsplitL_eq]
  simp only [hclean, hps, hpn, hs1, hs2]

theorem mem_netlocPart {sc nl p : List Char} {c : Char}
    (hc : c ∈ netlocPart ⟨sc, nl, p, [], []⟩) :
    c = '/' ∨ c ∈ nl ∨ c ∈ p := by
  unfold netlocPart at hc
  split at hc
  · simp only [List.mem_cons, List.mem_append] at hc
    rcases hc with h | h | h | h
    · exact Or.inl h
    · exact Or.inl h
    · exact Or.inr (Or.inl h)
    · split at h
      · rcases List.mem_cons.mp h with h | h
        · exact Or.inl h
        · exact Or.inr (Or.inr h)
      · exact Or.inr (Or.inr h)
  · exact Or.inr (Or.inr hc)

theorem mem_addScheme {sc url : List Char} {c : Char} (hc : c ∈ addScheme sc url) :
    c ∈ sc ∨ c = ':' ∨ c ∈ url := by
  unfold addScheme at hc
  split at hc
  · simp only [List.mem_append, List.mem_cons] at hc
    rcases hc with h | h | h
    · exact Or.inl h
    · exact Or.inr (Or.inl h)
    · exact Or.inr (Or.inr h)
  · exact Or.inr (Or.inr hc)

/-- Characters of the reassembled URL come from its components (plus the
`:` and `//` punctuation). -/
theorem mem_unsplit {sc nl p : List Char} {c : Char}
    (hc : c ∈ urlunsplitL ⟨sc, nl, p, [], []⟩) :
    c ∈ sc ∨ c = ':' ∨ c = '/' ∨ c ∈ nl ∨ c ∈ p := by
  have hc2 : c ∈ addScheme sc (netlocPart ⟨sc, nl, p, [], []⟩) := hc
  rcases mem_addScheme hc2 with h | h | h
  · exact Or.inl h
  · exact Or.inr (Or.inl h)
  · rcases mem_netlocPart h with h | h | h
    · exact Or.inr (Or.inr (Or.inl h))
    · exact Or.inr (Or.inr (Or.inr (Or.inl h)))
    · exact Or.inr (Or.inr (Or.inr (Or.inr h)))

/-- The reassembled URL contains no `?` or `#` when the components do not. -/
theorem unsplit_no_qf {sc nl p : List Char}
    (hsall : sc.all schemeChar = true)
    (hnend : ∀ c ∈ nl, netlocEndChar c = false)
    (hq : '?' ∉ p) (hf : '#' ∉ p) :
    '?' ∉ urlunsplitL ⟨sc, nl, p, [], []⟩ ∧ '#' ∉ urlunsplitL ⟨sc, nl, p, [], []⟩ := by
  constructor
  · intro hc
    rcases mem_unsplit hc with h | h | h | h | h
    · exact absurd (List.all_eq_true.mp hsall _ h) (by decide)
    · exact absurd h (by decide)
    · exact absurd h (by decide)
    · exact absurd (hnend _ h) (by decide)
    · exact hq h
  · intro hc
    rcases mem_unsplit hc with h | h | h | h | h
    · exact absurd (List.all_eq_true.mp hsall _ h) (by decide)
    · exact absurd h (by decide)
    · exact absurd h (by decide)
    · exact absurd (hnend _ h) (by decide)
    · exact hf h

/-- A `?`/`#`-free input splits with empty query and fragment. -/
theorem urlsplitL_no_qf {x : List Char} (hq : '?' ∉ x) (hf : '#' ∉ x) :
    (urlsplitL x).query = [] ∧ (urlsplitL x).fragment = [] := by
  have hf2 : '#' ∉ (parseNetloc (parseScheme (cleanUrl x)).2).2 := fun hm =>
    hf (mem_cleanUrl (parseScheme_snd_mem _ _ (parseNetloc_snd_mem _ _ hm)))
  have hq2 : '?' ∉ (splitFirst '#' (parseNetloc (parseScheme (cleanUrl x)).2).2).1 := fun hm =>
    hq (mem_cleanUrl (parseScheme_snd_mem _ _ (parseNetloc_snd_mem _ _
      (splitFirst_fst_mem '#' _ _ hm))))
  have h1 := splitFirst_of_not_mem hf2
  have h2 := splitFirst_of_not_mem hq2
  constructor
  · show ((splitFirst '?' (splitFirst '#'
      (parseNetloc (parseScheme (cleanUrl x)).2).2).1).2).getD [] = []
    simp only [h2, Option.getD_none]
  · show ((splitFirst '#' (parseNetloc (parseScheme (cleanUrl x)).2).2).2).getD [] = []
    simp only [h1, Option.getD_none]

/-- With a nonempty netloc, splitting the reassembled URL recovers the
components exactly. -/
theorem split_unsplit_netloc (sc nl p : List Char)
    (hsall : sc.all schemeChar = true)
    (hshead : sc = [] ∨ ∃ c0 t, sc = c0 :: t ∧ isAsciiAlpha c0 = true)
    (hsfix : sc.map pyLowerChar = sc)
    (hnend : ∀ c ∈ nl, netlocEndChar c = false)
    (hnsafe : ∀ c ∈ nl, isUnsafeUrlChar c = false)
    (hq : '?' ∉ p) (hf : '#' ∉ p)
    (hpsafe : ∀ c ∈ p, isUnsafeUrlChar c = false)
    (hproot : p = [] ∨ ∃ t, p = '/' :: t)
    (hnne : nl ≠ []) :
    urlsplitL (urlunsplitL ⟨sc, nl, p, [], []⟩) = ⟨sc, nl, p, [], []⟩ := by
  have hrest : netlocPart ⟨sc, nl, p, [], []⟩ = '/' :: '/' :: (nl ++ p) := by
    show (if nl ≠ [] ∨ (sc ≠ [] ∧ usesNetloc.contains sc ∧ p.take 2 ≠ ['/', '/'])
      then '/' :: '/' :: (nl ++ (if p ≠ [] ∧ p.take 1 ≠ ['/'] then '/' :: p else p))
      else p) = '/' :: '/' :: (nl ++ p)
    rw [if_pos (Or.inl hnne)]
    have hre : (if p ≠ [] ∧ p.take 1 ≠ ['/'] then '/' :: p else p) = p := by
      rcases hproot with hp0 | ⟨t, hp0⟩
      · subst hp0
        simp
      · subst hp0
        simp
    rw [hre]
  have hn : urlunsplitL ⟨sc, nl, p, [], []⟩ = addScheme sc ('/' :: '/' :: (nl ++ p)) := by
    show addFragment [] (addQuery [] (addScheme sc (netlocPart ⟨sc, nl, p, [], []⟩))) = _
    rw [hrest]
    rfl
  have hnl2 : ∀ c ∈ nl, (fun c => !netlocEndChar c) c = true := by
    intro c hc
    simp [hnend c hc]
  have htd := @takeWhile_append_all (fun c => !netlocEndChar c) nl p hnl2 (by
    rcases hproot with hp0 | ⟨t, hp0⟩
    · subst hp0
      trivial
    · subst hp0
      show (!netlocEndChar '/') = false
      decide)
  have hpn : parseNetloc ('/' :: '/' :: (nl ++ p)) = (nl, p) := by
    rw [parseNetloc_slash, htd.1, htd.2]
  have hsp1 : splitFirst '#' p = (p, none) := splitFirst_of_not_mem hf
  have hsp2 : splitFirst '?' p = (p, none) := splitFirst_of_not_mem hq
  have hmidsafe : ∀ c ∈ ('/' :: '/' :: (nl ++ p)), isUnsafeUrlChar c = false := by
    intro c hc
    simp only [List.mem_cons, List.mem_append] at hc
    rcases hc with h | h | h | h
    · subst h
      decide
    · subst h
      decide
    · exact hnsafe _ h
    · exact hpsafe _ h
  rcases hshead with hsc0 | ⟨c0, t, hsc, ha⟩
  · subst hsc0
    have hn2 : urlunsplitL ⟨[], nl, p, [], []⟩ = '/' :: '/' :: (nl ++ p) := by
      rw [hn]
      rfl
    have hclean : cleanUrl ('/' :: '/' :: (nl ++ p)) = '/' :: '/' :: (nl ++ p) :=
      cleanUrl_eq_self hmidsafe (show isC0OrSpace '/' = false by decide)
    have hps : parseScheme ('/' :: '/' :: (nl ++ p)) = ([], '/' :: '/' :: (nl ++ p)) :=
      parseScheme_fail_head _ (by decide)
    rw [hn2]
    exact urlsplitL_components hclean hps hpn hsp1 hsp2
  · have hscne : sc ≠ [] := by simp [hsc]
    have hn2 : urlunsplitL ⟨sc, nl, p, [], []⟩ = sc ++ ':' :: '/' :: '/' :: (nl ++ p) := by
      rw [hn]
      unfold addScheme
      rw [if_pos hscne]
    have hcleanchars : ∀ c ∈ sc ++ ':' :: '/' :: '/' :: (nl ++ p),
        isUnsafeUrlChar c = false := by
      intro c hc
      rcases List.mem_append.mp hc with h | h
      · exact (schemeChar_safe (List.all_eq_true.mp hsall _ h)).2.2.2.2.2
      · rcases List.mem_cons.mp h with h | h
        · subst h
          decide
        · exact hmidsafe _ h
    have hclean : cleanUrl (sc ++ ':' :: '/' :: '/' :: (nl ++ p))
        = sc ++ ':' :: '/' :: '/' :: (nl ++ p) := by
      apply cleanUrl_eq_self hcleanchars
      subst hsc
      show isC0OrSpace c0 = false
      exact isAsciiAlpha_not_C0 ha
    have hps : parseScheme (sc ++ ':' :: '/' :: '/' :: (nl ++ p))
        = (sc, '/' :: '/' :: (nl ++ p)) :=
      parseScheme_reassemble _ hscne hsall ⟨c0, t, hsc, ha⟩ hsfix
    rw [hn2]
    exact urlsplitL_components hclean hps hpn hsp1 hsp2

/-- Without a netloc and with a path that does not begin `//`,
re-normalising the reassembled URL reproduces it: splitting it again and
reassembling scheme/netloc/path with blank query and fragment is the
identity. -/
theorem unsplit_resplit_nonetloc (sc p : List Char)
    (hsall : sc.all schemeChar = true)
    (hshead : sc = [] ∨ ∃ c0 t, sc = c0 :: t ∧ isAsciiAlpha c0 = true)
    (hsfix : sc.map pyLowerChar = sc)
    (hq : '?' ∉ p) (hf : '#' ∉ p)
    (hpsafe : ∀ c ∈ p, isUnsafeUrlChar c = false)
    (hpfail : sc = [] → parseScheme p = ([], p))
    (hphead : sc = [] → (p = [] ∨ ∃ c0 t, p = c0 :: t ∧ isC0OrSpace c0 = false))
    (htake2 : p.take 2 ≠ ['/', '/']) :
    (urlsplitL (urlunsplitL ⟨sc, [], p, [], []⟩)).netloc = [] ∧
    urlunsplitL ⟨(urlsplitL (urlunsplitL ⟨sc, [], p, [], []⟩)).scheme,
      (urlsplitL (urlunsplitL ⟨sc, [], p, [], []⟩)).netloc,
      (urlsplitL (urlunsplitL ⟨sc, [], p, [], []⟩)).path, [], []⟩
      = urlunsplitL ⟨sc, [], p, [], []⟩ := by
  by_cases hB : sc ≠ [] ∧ usesNetloc.contains sc = true
  · -- the authority branch of `urlunsplit` fires even with empty netloc
    obtain ⟨hscne, hus⟩ := hB
    rcases hshead with hsc0 | ⟨c0, t, hsc, ha⟩
    · exact absurd hsc0 hscne
    obtain ⟨p', hp'root, hp'take, hp'eq, hp'q, hp'f, hp'safe⟩ :
        ∃ p', (p' = [] ∨ ∃ t2, p' = '/' :: t2) ∧ p'.take 2 ≠ ['/', '/'] ∧
          (if p ≠ [] ∧ p.take 1 ≠ ['/'] then '/' :: p else p) = p' ∧
          '?' ∉ p' ∧ '#' ∉ p' ∧ (∀ c ∈ p', isUnsafeUrlChar c = false) := by
      rcases hpc : p with _ | ⟨c, t2⟩
      · exact ⟨[], Or.inl rfl, by decide, by simp, by simp, by simp, by simp⟩
      · by_cases hc : c = '/'
        · subst hc
          subst hpc
          refine ⟨'/' :: t2, Or.inr ⟨t2, rfl⟩, htake2, by simp, hq, hf, hpsafe⟩
        · subst hpc
          refine ⟨'/' :: c :: t2, Or.inr ⟨c :: t2, rfl⟩, by simp [hc], by simp [hc],
            ?_, ?_, ?_⟩
          · intro h
            rcases List.mem_cons.mp h with h | h
            · exact absurd h (by decide)
            · exact hq h
          · intro h
            rcases List.mem_cons.mp h with h | h
            · exact absurd h (by decide)
            · exact hf h
          · intro x hx
            rcases List.mem_cons.mp hx with h | h
            · subst h
              decide
            · exact hpsafe _ h
    have hrestL : netlocPart ⟨sc, [], p, [], []⟩ = '/' :: '/' :: p' := by
      show (if ([] : List Char) ≠ [] ∨ (sc ≠ [] ∧ usesNetloc.contains sc ∧ p.take 2 ≠ ['/', '/'])
        then '/' :: '/' :: (([] : List Char) ++
          (if p ≠ [] ∧ p.take 1 ≠ ['/'] then '/' :: p else p))
        else p) = '/' :: '/' :: p'
      rw [if_pos (Or.inr ⟨hscne, hus, htake2⟩), hp'eq, List.nil_append]
    have hn : urlunsplitL ⟨sc, [], p, [], []⟩ = sc ++ ':' :: '/' :: '/' :: p' := by
      show addFragment [] (addQuery [] (addScheme sc (netlocPart ⟨sc, [], p, [], []⟩))) = _
      rw [hrestL]
      show addScheme sc ('/' :: '/' :: p') = _
      unfold addScheme
      rw [if_pos hscne]
    have hcleanchars : ∀ c ∈ sc ++ ':' :: '/' :: '/' :: p', isUnsafeUrlChar c = false := by
      intro c hc
      rcases List.mem_append.mp hc with h | h
      · exact (schemeChar_safe (List.all_eq_true.mp hsall _ h)).2.2.2.2.2
      · rcases List.mem_cons.mp h with h | h
        · subst h
          decide
        rcases List.mem_cons.mp h with h | h
        · subst h
          decide
        rcases List.mem_cons.mp h with h | h
        · subst h
          decide
        · exact hp'safe _ h
    have hclean : cleanUrl (sc ++ ':' :: '/' :: '/' :: p')
        = sc ++ ':' :: '/' :: '/' :: p' := by
      apply cleanUrl_eq_self hcleanchars
      subst hsc
      show isC0OrSpace c0 = false
      exact isAsciiAlpha_not_C0 ha
    have hps : parseScheme (sc ++ ':' :: '/' :: '/' :: p') = (sc, '/' :: '/' :: p') :=
      parseScheme_reassemble _ hscne hsall ⟨c0, t, hsc, ha⟩ hsfix
    have htd := @takeWhile_append_all (fun c => !netlocEndChar c) [] p'
      (by intro c hc; cases hc) (by
        rcases hp'root with hp0 | ⟨t2, hp0⟩
        · subst hp0
          trivial
        · subst hp0
          show (!netlocEndChar '/') = false
          decide)
    have ht1 : p'.takeWhile (fun c => !netlocEndChar c) = [] := htd.1
    have ht2 : p'.dropWhile (fun c => !netlocEndChar c) = p' := htd.2
    have hpn : parseNetloc ('/' :: '/' :: p') = ([], p') := by
      rw [parseNetloc_slash, ht1, ht2]
    have hsp1 : splitFirst '#' p' = (p', none) := splitFirst_of_not_mem hp'f
    have hsp2 : splitFirst '?' p' = (p', none) := splitFirst_of_not_mem hp'q
    have hcomp : urlsplitL (urlunsplitL ⟨sc, [], p, [], []⟩) = ⟨sc, [], p', [], []⟩ := by
      rw [hn]
      exact urlsplitL_components hclean hps hpn hsp1 hsp2
    refine ⟨by rw [hcomp], ?_⟩
    rw [hcomp]
    show urlunsplitL ⟨sc, [], p', [], []⟩ = urlunsplitL ⟨sc, [], p, [], []⟩
    have hrestL2 : netlocPart ⟨sc, [], p', [], []⟩ = '/' :: '/' :: p' := by
      show (if ([] : List Char) ≠ [] ∨
          (sc ≠ [] ∧ usesNetloc.contains sc ∧ p'.take 2 ≠ ['/', '/'])
        then '/' :: '/' :: (([] : List Char) ++
          (if p' ≠ [] ∧ p'.take 1 ≠ ['/'] then '/' :: p' else p'))
        else p') = '/' :: '/' :: p'
      rw [if_pos (Or.inr ⟨hscne, hus, hp'take⟩)]
      have hre : (if p' ≠ [] ∧ p'.take 1 ≠ ['/'] then '/' :: p' else p') = p' := by
        rcases hp'root with hp0 | ⟨t2, hp0⟩
        · subst hp0
          simp
        · subst hp0
          simp
      rw [hre, List.nil_append]
    have hn2 : urlunsplitL ⟨sc, [], p', [], []⟩ = sc ++ ':' :: '/' :: '/' :: p' := by
      show addFragment [] (addQuery [] (addScheme sc (netlocPart ⟨sc, [], p', [], []⟩))) = _
      rw [hrestL2]
      show addScheme sc ('/' :: '/' :: p') = _
      unfold addScheme
      rw [if_pos hscne]
    rw [hn2, hn]
  · -- the plain branch: the reassembled URL is `scheme : path` or `path`
    have hcondneg : ¬(([] : List Char) ≠ [] ∨
        (sc ≠ [] ∧ usesNetloc.contains sc = true ∧ p.take 2 ≠ ['/', '/'])) := by
      intro h
      rcases h with h | ⟨h1, h2, h3⟩
      · exact h rfl
      · exact hB ⟨h1, h2⟩
    have hrest : netlocPart ⟨sc, [], p, [], []⟩ = p := by
      show (if ([] : List Char) ≠ [] ∨ (sc ≠ [] ∧ usesNetloc.contains sc ∧ p.take 2 ≠ ['/', '/'])
        then '/' :: '/' :: (([] : List Char) ++
          (if p ≠ [] ∧ p.take 1 ≠ ['/'] then '/' :: p else p))
        else p) = p
      rw [if_neg hcondneg]
    have hn : urlunsplitL ⟨sc, [], p, [], []⟩ = addScheme sc p := by
      show addFragment [] (addQuery [] (addScheme sc (netlocPart ⟨sc, [], p, [], []⟩))) = _
      rw [hrest]
      rfl
    have hpn : parseNetloc p = ([], p) := parseNetloc_not_slash htake2
    have hsp1 : splitFirst '#' p = (p, none) := splitFirst_of_not_mem hf
    have hsp2 : splitFirst '?' p = (p, none) := splitFirst_of_not_mem hq
    rcases hshead with hsc0 | ⟨c0, t, hsc, ha⟩
    · subst hsc0
      have hn2 : urlunsplitL ⟨[], [], p, [], []⟩ = p := by
        rw [hn]
        rfl
      have hclean : cleanUrl p = p := by
        apply cleanUrl_eq_self hpsafe
        rcases hphead rfl with h | ⟨c0, t, h, hc0⟩
        · subst h
          trivial
        · subst h
          show isC0OrSpace c0 = false
          exact hc0
      have hps : parseScheme p = ([], p) := hpfail rfl
      have hcomp : urlsplitL (urlunsplitL ⟨[], [], p, [], []⟩) = ⟨[], [], p, [], []⟩ := by
        rw [hn2]
        exact urlsplitL_components hclean hps hpn hsp1 hsp2
      exact ⟨by rw [hcomp], by rw [hcomp]⟩
    · have hscne : sc ≠ [] := by simp [hsc]
      have hn2 : urlunsplitL ⟨sc, [], p, [], []⟩ = sc ++ ':' :: p := by
        rw [hn]
        unfold addScheme
        rw [if_pos hscne]
      have hcleanchars : ∀ c ∈ sc ++ ':' :: p, isUnsafeUrlChar c = false := by
        intro c hc
        rcases List.mem_append.mp hc with h | h
        · exact (schemeChar_safe (List.all_eq_true.mp hsall _ h)).2.2.2.2.2
        · rcases List.mem_cons.mp h with h | h
          · subst h
            decide
          · exact hpsafe _ h
      have hclean : cleanUrl (sc ++ ':' :: p) = sc ++ ':' :: p := by
        apply cleanUrl_eq_self hcleanchars
        subst hsc
        show isC0OrSpace c0 = false
        exact isAsciiAlpha_not_C0 ha
      have hps : parseScheme (sc ++ ':' :: p) = (sc, p) :=
        parseScheme_reassemble _ hscne hsall ⟨c0, t, hsc, ha⟩ hsfix
      have hcomp : urlsplitL (urlunsplitL ⟨sc, [], p, [], []⟩) = ⟨sc, [], p, [], []⟩ := by
        rw [hn2]
        exact urlsplitL_components hclean hps hpn hsp1 hsp2
      exact ⟨by rw [hcomp], by rw [hcomp]⟩

/-- `bracketCheck` accepts the empty netloc. -/
theorem bracketCheck_nil : bracketCheck [] = none := rfl

/-- `_checknetloc` accepts the empty netloc. -/
theorem checknetloc_nil : checknetloc [] = none := rfl

/-- A successful `urlsplitE` returns the `urlsplitL` components and
certifies that both netloc validations passed. -/
theorem urlsplitE_ok_elim {u : List Char} {s : SplitResult}
    (h : urlsplitE u = Except.ok s) :
    s = urlsplitL u ∧ bracketCheck (urlsplitL u).netloc = none ∧
      checknetloc (urlsplitL u).netloc = none := by
  unfold urlsplitE at h
  rcases hb : (if (parseScheme (cleanUrl u)).2.take 2 = ['/', '/']
      then bracketCheck (urlsplitL u).netloc else none) with _ | e
  · rcases hn : checknetloc (urlsplitL u).netloc with _ | e
    · simp only [hb, hn] at h
      have hbr : bracketCheck (urlsplitL u).netloc = none := by
        by_cases hg : (parseScheme (cleanUrl u)).2.take 2 = ['/', '/']
        · rw [if_pos hg] at hb
          exact hb
        · have hnl : (urlsplitL u).netloc = [] := by
            show (parseNetloc (parseScheme (cleanUrl u)).2).1 = []
            rw [parseNetloc_not_slash hg]
          rw [hnl]
          exact bracketCheck_nil
      injection h with h2
      exact ⟨h2.symm, hbr, rfl⟩
    · simp only [hb, hn] at h
      exact Except.noConfusion h
  · simp only [hb] at h
    exact Except.noConfusion h

/-- Conversely, when both netloc validations pass, `urlsplitE`
succeeds with the `urlsplitL` components. -/
theorem urlsplitE_of_checks {u : List Char}
    (h1 : bracketCheck (urlsplitL u).netloc = none)
    (h2 : checknetloc (urlsplitL u).netloc = none) :
    urlsplitE u = Except.ok (urlsplitL u) := by
  unfold urlsplitE
  have hg : (if (parseScheme (cleanUrl u)).2.take 2 = ['/', '/']
      then bracketCheck (urlsplitL u).netloc else none) = none := by
    by_cases hg : (parseScheme (cleanUrl u)).2.take 2 = ['/', '/']
    · rw [if_pos hg]
      exact h1
    · rw [if_neg hg]
  simp only [hg, h2]

/-- When `urlsplit` accepts the URL, `normalize_urlE` succeeds and
returns `normalize_url`. -/
theorem normalize_urlE_of_ok {u : String} {s : SplitResult}
    (h : urlsplitE u.toList = Except.ok s) :
    normalize_urlE u = Except.ok (normalize_url u) := by
  obtain ⟨hs, _, _⟩ := urlsplitE_ok_elim h
  subst hs
  unfold normalize_urlE
  simp only [h]
  rfl

/-- The model reproduces `urlsplit`'s acceptance behaviour on the
`ValueError` paths (each case checked against CPython 3.11): an
unbalanced bracket, a bracketed non-IP host, a bracketed IPv4 address and
an NFKC-hazardous netloc raise; bracketed IPv6 (with scope or IPv4
suffix), IPvFuture and plain non-ASCII hosts do not. -/
theorem urlsplitE_examples :
    urlsplitE ("http://[x/item".toList) = Except.error "Invalid IPv6 URL" ∧
    (∃ e, urlsplitE ("http://[foo]/item".toList) = Except.error e) ∧
    (∃ e, urlsplitE ("http://[1.2.3.4]/".toList) = Except.error e) ∧
    (∃ e, urlsplitE ("http://a：b/".toList) = Except.error e) ∧
    urlsplitE ("http://[::1]:8080/x".toList)
      = Except.ok (urlsplitL ("http://[::1]:8080/x".toList)) ∧
    urlsplitE ("http://[fe80::1%eth0]/".toList)
      = Except.ok (urlsplitL ("http://[fe80::1%eth0]/".toList)) ∧
    urlsplitE ("http://[::ffff:1.2.3.4]/x".toList)
      = Except.ok (urlsplitL ("http://[::ffff:1.2.3.4]/x".toList)) ∧
    urlsplitE ("http://[v1.fe80::a+en1]/".toList)
      = Except.ok (urlsplitL ("http://[v1.fe80::a+en1]/".toList)) ∧
    urlsplitE ("http://хост.kg/x".toList)
      = Except.ok (urlsplitL ("http://хост.kg/x".toList)) :=
  ⟨rfl, ⟨_, rfl⟩, ⟨_, rfl⟩, ⟨_, rfl⟩, rfl, rfl, rfl, rfl, rfl⟩

/-- C3 (counterexample): the claim's "never raises to its caller" is
false of the program.  Line 234 `row = FlatDetail(url=normalize_url(url))`
runs before the `try` block opens on line 235, and `urlsplit` raises
`ValueError("Invalid IPv6 URL")` on a netloc with an unbalanced bracket,
so `parse_flat_page("http://[x/item", ...)` raises straight to `scrape`
regardless of the fetch outcome. -/
theorem claim_C3_counterexample :
    parse_flat_pageE "http://[x/item" (fun _ => FetchOutcome.failure "connection error")
      = Except.error "Invalid IPv6 URL" := rfl

/-- C3 (amended): on every URL that `urlsplit` accepts, `parse_flat_page`
returns normally (nothing escapes to the caller); the returned record
always carries the canonicalized input URL; a fetch failure is recorded
in `error`; and a row of the run depends only on the fetch outcome of its
own URL, so one item's failure cannot remove or corrupt neighboring
records. -/
theorem claim_C3_amended :
    ∀ (url : String) (fetch : String → FetchOutcome) (s : SplitResult),
      urlsplitE url.toList = Except.ok s →
      parse_flat_pageE url fetch = Except.ok (parse_flat_page url fetch) ∧
      (parse_flat_page url fetch).url = normalize_url url ∧
      (∀ msg, fetch (normalize_url url) = .failure msg →
        (parse_flat_page url fetch).error = some msg) ∧
      (∀ (links : List String) (g : String → FetchOutcome) (j : ℕ) (hj : j < links.length),
        fetch (normalize_url (links.get ⟨j, hj⟩)) = g (normalize_url (links.get ⟨j, hj⟩)) →
        (scrapeRows fetch links).get? j = (scrapeRows g links).get? j) := by
  intro url fetch s hok
  refine ⟨?_, ?_, ?_, ?_⟩
  · unfold parse_flat_pageE
    simp only [normalize_urlE_of_ok hok]
  · unfold parse_flat_page
    cases hf : fetch (normalize_url url) with
    | failure msg => rfl
    | success page => exact (parsePage_spec url page).1
  · intro msg hm
    unfold parse_flat_page
    rw [hm]
  · intro links g j hj hagree
    rw [scrapeRows_get, scrapeRows_get, List.get?_eq_get hj]
    simp only [Option.map_some']
    congr 1
    unfold parse_flat_page
    rw [hagree]

/-- Witness for C3: `urlsplit` accepts the lalafo item URL, and a
transport failure yields a normal return whose record has `error` set
and the canonical URL. -/
theorem claim_C3_witness :
    parse_flat_pageE "https://lalafo.kg/item/3" (fun _ => FetchOutcome.failure "boom")
      = Except.ok (parse_flat_page "https://lalafo.kg/item/3"
          (fun _ => FetchOutcome.failure "boom")) ∧
    (parse_flat_page "https://lalafo.kg/item/3" (fun _ => FetchOutcome.failure "boom")).error
      = some "boom" ∧
    (parse_flat_page "https://lalafo.kg/item/3" (fun _ => FetchOutcome.failure "boom")).url
      = normalize_url "https://lalafo.kg/item/3" := by
  have h := claim_C3_amended "https://lalafo.kg/item/3" (fun _ => FetchOutcome.failure "boom")
    (urlsplitS "https://lalafo.kg/item/3") rfl
  exact ⟨h.1, h.2.2.1 "boom" rfl, h.2.1⟩

/-- C9 (counterexample): `normalize_url` does not leave the scheme
untouched — `urlsplit` lowercases it — and it is not idempotent on every
input: `normalize_url "////" = "//"`, but normalising `"//"` again gives
`""`. -/
theorem claim_C9_counterexample :
    normalize_url "HTTP://lalafo.kg/p" = "http://lalafo.kg/p" ∧
    normalize_url "////" = "//" ∧
    normalize_url (normalize_url "////") ≠ normalize_url "////" := by
  refine ⟨by decide, by decide, by decide⟩

/-- C9 (amended): on every URL that `urlsplit` accepts (`urlsplitE`
succeeds — the real `normalize_url` raises `ValueError` on, e.g.,
`"http://[foo]/item"`), `normalize_url` strips the query and fragment:
its output contains no `?` or `#` at all.  If moreover the netloc is
nonempty or the path does not begin `//`, re-splitting the output also
succeeds, with empty query and fragment; a nonempty netloc is preserved
exactly along with the scheme (as lowercased by `urlsplit`) and path;
and renormalising succeeds and is the identity. -/
theorem claim_C9_amended (u : String) (s : SplitResult)
    (hok : urlsplitE u.toList = Except.ok s) :
    '?' ∉ (normalize_url u).toList ∧ '#' ∉ (normalize_url u).toList ∧
    ((s.netloc ≠ [] ∨ s.path.take 2 ≠ ['/', '/']) →
      ∃ s2, urlsplitE (normalize_url u).toList = Except.ok s2 ∧
        s2.query = [] ∧ s2.fragment = [] ∧
        (s.netloc ≠ [] → s2 = ⟨s.scheme, s.netloc, s.path, [], []⟩) ∧
        normalize_urlE (normalize_url u) = Except.ok (normalize_url u)) := by
  obtain ⟨hs, hbr, hcn⟩ := urlsplitE_ok_elim hok
  subst hs
  obtain ⟨f1, f2, f3, f4, f5, f6, f7, f8, f9, f10, f11⟩ := urlsplitL_facts u.toList
  have hnoqf := unsplit_no_qf f1 f4 f6 f7
  have hPq : '?' ∉ (normalize_url u).toList := hnoqf.1
  have hPf : '#' ∉ (normalize_url u).toList := hnoqf.2
  have h12 := urlsplitL_no_qf hPq hPf
  refine ⟨hPq, hPf, ?_⟩
  intro hyp
  by_cases hne : (urlsplitL u.toList).netloc = []
  · have htk : (urlsplitL u.toList).path.take 2 ≠ ['/', '/'] := by
      rcases hyp with h | h
      · exact absurd hne h
      · exact h
    have hkey := unsplit_resplit_nonetloc (urlsplitL u.toList).scheme (urlsplitL u.toList).path
      f1 f2 f3 f6 f7 f8 f10 f11 htk
    have hrec : (⟨(urlsplitL u.toList).scheme, (urlsplitL u.toList).netloc,
        (urlsplitL u.toList).path, [], []⟩ : SplitResult)
        = ⟨(urlsplitL u.toList).scheme, [], (urlsplitL u.toList).path, [], []⟩ := by
      rw [hne]
    have hPdef : (normalize_url u).toList
        = urlunsplitL ⟨(urlsplitL u.toList).scheme, [], (urlsplitL u.toList).path, [], []⟩ := by
      show urlunsplitL ⟨(urlsplitL u.toList).scheme, (urlsplitL u.toList).netloc,
        (urlsplitL u.toList).path, [], []⟩ = _
      rw [hrec]
    have hnl2 : (urlsplitL (normalize_url u).toList).netloc = [] := by
      rw [hPdef]
      exact hkey.1
    have hokP : urlsplitE (normalize_url u).toList
        = Except.ok (urlsplitL (normalize_url u).toList) := by
      apply urlsplitE_of_checks
      · simp only [hnl2]
        exact bracketCheck_nil
      · simp only [hnl2]
        exact checknetloc_nil
    refine ⟨urlsplitL (normalize_url u).toList, hokP, h12.1, h12.2, ?_, ?_⟩
    · intro hcon
      exact absurd hne hcon
    · unfold normalize_urlE
      simp only [hokP]
      have hfix : urlunsplitL ⟨(urlsplitL (normalize_url u).toList).scheme,
          (urlsplitL (normalize_url u).toList).netloc,
          (urlsplitL (normalize_url u).toList).path, [], []⟩
          = (normalize_url u).toList := by
        rw [hPdef]
        exact hkey.2
      rw [hfix]
      rfl
  · have hcompA : urlsplitL (normalize_url u).toList
        = ⟨(urlsplitL u.toList).scheme, (urlsplitL u.toList).netloc,
           (urlsplitL u.toList).path, [], []⟩ :=
      split_unsplit_netloc _ _ _ f1 f2 f3 f4 f5 f6 f7 f8 (f9 hne) hne
    have hnlA : (urlsplitL (normalize_url u).toList).netloc = (urlsplitL u.toList).netloc := by
      rw [hcompA]
    have hokP : urlsplitE (normalize_url u).toList
        = Except.ok (urlsplitL (normalize_url u).toList) := by
      apply urlsplitE_of_checks
      · simp only [hnlA]
        exact hbr
      · simp only [hnlA]
        exact hcn
    refine ⟨urlsplitL (normalize_url u).toList, hokP, h12.1, h12.2, fun _ => hcompA, ?_⟩
    unfold normalize_urlE
    simp only [hokP]
    have hfix : urlunsplitL ⟨(urlsplitL (normalize_url u).toList).scheme,
        (urlsplitL (normalize_url u).toList).netloc,
        (urlsplitL (normalize_url u).toList).path, [], []⟩
        = (normalize_url u).toList := by
      rw [hcompA]
      rfl
    rw [hfix]
    rfl

/-- C9 (witness): on a lalafo listing URL with query and fragment,
`urlsplit` accepts the "https://lalafo.kg/kyrgyzstan/kvartiry?page=2#foo", the netloc is nonempty, and the amended
theorem yields: no `?`/`#` in the normalised URL, a successful re-split
with empty query and fragment and the original scheme/netloc/path, and
renormalisation succeeding as the identity. -/
theorem claim_C9_witness :
    (urlsplitS "https://lalafo.kg/kyrgyzstan/kvartiry?page=2#foo").netloc ≠ [] ∧
    '?' ∉ (normalize_url "https://lalafo.kg/kyrgyzstan/kvartiry?page=2#foo").toList ∧
    '#' ∉ (normalize_url "https://lalafo.kg/kyrgyzstan/kvartiry?page=2#foo").toList ∧
    (∃ s2, urlsplitE (normalize_url "https://lalafo.kg/kyrgyzstan/kvartiry?page=2#foo").toList = Except.ok s2 ∧
      s2.query = [] ∧ s2.fragment = [] ∧
      ((urlsplitS "https://lalafo.kg/kyrgyzstan/kvartiry?page=2#foo").netloc ≠ [] →
        s2 = ⟨(urlsplitS "https://lalafo.kg/kyrgyzstan/kvartiry?page=2#foo").scheme, (urlsplitS "https://lalafo.kg/kyrgyzstan/kvartiry?page=2#foo").netloc,
              (urlsplitS "https://lalafo.kg/kyrgyzstan/kvartiry?page=2#foo").path, [], []⟩) ∧
      normalize_urlE (normalize_url "https://lalafo.kg/kyrgyzstan/kvartiry?page=2#foo")
        = Except.ok (normalize_url "https://lalafo.kg/kyrgyzstan/kvartiry?page=2#foo")) := by
  have h := claim_C9_amended "https://lalafo.kg/kyrgyzstan/kvartiry?page=2#foo" (urlsplitS "https://lalafo.kg/kyrgyzstan/kvartiry?page=2#foo") rfl
  exact ⟨by decide, h.1, h.2.1, h.2.2 (Or.inl (by decide))⟩

end Lalafo
